import Mathlib

/-!
Verification development for the bit-encoded destination-recommendation
storage (src/storage.ts, class ConnectionsStorage).

The TypeScript source is shallowly embedded:

* JS BitSet values (from the bitset library) become the BitSet structure
  below: a finite set of bit positions together with a complement flag
  (the library represents the result of not() as a vector with an
  infinite tail of ones; the flag models that tail).
* JS Date values become Int epoch milliseconds; day indices are obtained
  by floor-dividing the millisecond difference by 86400000, as the source
  does.
* JS Map objects become insertion-ordered association lists.
* Thrown exceptions become explicit error values.  setConnection returns
  the post-call state together with an optional error, because a JS
  exception does not roll back mutations already performed on the object.
  Out-of-bounds array accesses (undefined[i] in JS, a TypeError) are
  modelled by the typeError error value.
-/

/-- Model of a value of the bitset JS library: if inf is false the value
is the finite set s of one-bits; if inf is true it is the complement of s
(every position outside s is a one-bit). -/
structure BitSet where
  s : Finset ℕ
  inf : Bool
deriving DecidableEq

/-- Membership test (bitset get): whether bit n is set. -/
def BitSet.memb (b : BitSet) (n : ℕ) : Bool :=
  if b.inf then !(decide (n ∈ b.s)) else decide (n ∈ b.s)

/-- Empty bit vector, JS new BitSet(). -/
def BitSet.empty : BitSet := ⟨∅, false⟩

/-- Bit vector from a list of positions, JS new BitSet(array). -/
def BitSet.ofList (l : List ℕ) : BitSet := ⟨l.toFinset, false⟩

/-- Bitwise AND (intersection of the represented sets). -/
def BitSet.and (a b : BitSet) : BitSet :=
  match a.inf, b.inf with
  | false, false => ⟨a.s ∩ b.s, false⟩
  | false, true  => ⟨a.s \ b.s, false⟩
  | true,  false => ⟨b.s \ a.s, false⟩
  | true,  true  => ⟨a.s ∪ b.s, true⟩

/-- Bitwise OR (union of the represented sets). -/
def BitSet.or (a b : BitSet) : BitSet :=
  match a.inf, b.inf with
  | false, false => ⟨a.s ∪ b.s, false⟩
  | false, true  => ⟨b.s \ a.s, true⟩
  | true,  false => ⟨a.s \ b.s, true⟩
  | true,  true  => ⟨a.s ∩ b.s, true⟩

/-- Bitwise NOT (complement; flips the infinite-tail flag). -/
def BitSet.not (a : BitSet) : BitSet := ⟨a.s, !a.inf⟩

/-- Population count.  The JS library returns Infinity on a complemented
vector; the algorithm only ever takes the cardinality of finite vectors,
so the value returned on the inf case is irrelevant junk. -/
def BitSet.cardinality (a : BitSet) : ℕ := if a.inf then 0 else a.s.card

/-- Enumeration of set bits in ascending order (bitset toArray),
realized by filtering an initial segment of the naturals that covers
every element.  Only ever applied to finite vectors by the algorithm. -/
def BitSet.toArray (a : BitSet) : List ℕ :=
  if a.inf then []
  else (List.range (a.s.sup id + 1)).filter (fun n => decide (n ∈ a.s))

/-- Setting one bit, JS b.set(i, 1). -/
def BitSet.set (a : BitSet) (i : ℕ) : BitSet :=
  if a.inf then ⟨a.s.erase i, true⟩ else ⟨insert i a.s, false⟩

/-- Connection input record (src/interfaces.ts).  date is the JS Date
value in epoch milliseconds. -/
structure Connection where
  originAirportCode : String
  destinationAirportCode : String
  date : Int
  stops : Int
  arriveNextDay : Int
deriving DecidableEq

/-- Origin input record (src/interfaces.ts). -/
structure OriginInput where
  code : String
  count : Int
deriving DecidableEq

/-- Destination result record (src/interfaces.ts). -/
structure Destination where
  code : String
  availableOrigins : ℕ
  totalStops : ℕ
  unavailableOutboundOrigins : List String
  outboundShoulderNights : Int
  unavailableInboundOrigins : List String
  inboundShoulderNights : Int
deriving DecidableEq

/-- Error raised by the storage: the two validation errors thrown by the
source, plus typeError modelling a JS TypeError from indexing into
undefined (an out-of-bounds storage access). -/
inductive StorageError where
  | invalidStops : StorageError
  | dateOutOfRange : StorageError
  | typeError : StorageError
deriving DecidableEq

/-- Lookup in an insertion-ordered map with Nat values (this.airports). -/
def mapGet (m : List (String × ℕ)) (k : String) : Option ℕ :=
  (m.find? (fun p => p.1 == k)).map Prod.snd

/-- Key-presence test (JS Map.has). -/
def mapHas (m : List (String × ℕ)) (k : String) : Bool :=
  (m.find? (fun p => p.1 == k)).isSome

/-- Lookup in an insertion-ordered map with Int values (originsMap). -/
def mapGetI (m : List (String × Int)) (k : String) : Option Int :=
  (m.find? (fun p => p.1 == k)).map Prod.snd

/-- JS Map.set on an Int-valued map: overwrite in place if the key is
present, else append (insertion order is first-seen order, value is the
last written). -/
def mapSetI (m : List (String × Int)) (k : String) (v : Int) :
    List (String × Int) :=
  if m.any (fun p => p.1 == k) then
    m.map (fun p => if p.1 == k then (k, v) else p)
  else m ++ [(k, v)]

/-- State of the ConnectionsStorage class (src/storage.ts).  airports is
the code-to-index Map, airportsArray its inverse array; both 3-D stores
are indexed day, airport, stops; startDate is epoch milliseconds. -/
structure ConnectionsStorage where
  airports : List (String × ℕ)
  airportsArray : List String
  outboundStorage : List (List (List BitSet))
  inboundStorage : List (List (List BitSet))
  startDate : Int
deriving DecidableEq

/-- MAX_STOPS_SUPPORTED field of the class. -/
def MAX_STOPS_SUPPORTED : ℕ := 2

/-- MAX_DAYS_SUPPORTED field of the class. -/
def MAX_DAYS_SUPPORTED : ℕ := 360

/-- The constructor: 360 empty day slots in each store. -/
def ConnectionsStorage.init (initDate : Int) : ConnectionsStorage :=
  { airports := []
    airportsArray := []
    outboundStorage := List.replicate MAX_DAYS_SUPPORTED []
    inboundStorage := List.replicate MAX_DAYS_SUPPORTED []
    startDate := initDate }

/-- addAirport: registers a new code at index airports.size and extends
every day slot of both stores with MAX_STOPS_SUPPORTED + 1 empty bit
vectors; a no-op returning false if the code is already present. -/
def ConnectionsStorage.addAirport (st : ConnectionsStorage)
    (airportCode : String) : ConnectionsStorage × Bool :=
  if mapHas st.airports airportCode then (st, false)
  else
    ({ st with
        airports := st.airports ++ [(airportCode, st.airports.length)]
        airportsArray := st.airportsArray ++ [airportCode]
        outboundStorage := st.outboundStorage.map
          (fun dayArr =>
            dayArr ++ [List.replicate (MAX_STOPS_SUPPORTED + 1) BitSet.empty])
        inboundStorage := st.inboundStorage.map
          (fun dayArr =>
            dayArr ++ [List.replicate (MAX_STOPS_SUPPORTED + 1) BitSet.empty]) },
      true)

/-- The stops validation of the source (throws when stops is negative or
above MAX_STOPS_SUPPORTED). -/
def _validateStops (stops : Int) : Option StorageError :=
  if stops < 0 ∨ stops > (MAX_STOPS_SUPPORTED : Int) then
    some StorageError.invalidStops
  else none

/-- The date-index validation of the source.  Note the source condition
is index < 0 or index > MAX_DAYS_SUPPORTED, so index = 360 passes. -/
def _validateDateIndex (index : Int) : Option StorageError :=
  if index < 0 ∨ index > (MAX_DAYS_SUPPORTED : Int) then
    some StorageError.dateOutOfRange
  else none

/-- Date-to-index conversion: floor of the millisecond difference over
86400000, paired with the validation outcome on the index. -/
def ConnectionsStorage.convertDateToArrayIndex (st : ConnectionsStorage)
    (date : Int) : Int × Option StorageError :=
  let timeDifference := date - st.startDate
  let dateIndex := Int.fdiv timeDifference 86400000
  (dateIndex, _validateDateIndex dateIndex)

/-- Read a stored bit vector at store[day][apt][stop]; none models the
JS undefined produced by an out-of-bounds index. -/
def readBit3 (store : List (List (List BitSet))) (day apt stop : ℕ) :
    Option BitSet := do
  let dayArr ← store[day]?
  let aptArr ← dayArr[apt]?
  aptArr[stop]?

/-- Set one bit at store[day][apt][stop]; none models the JS TypeError
raised when an index is out of bounds (indexing into undefined). -/
def setBit3 (store : List (List (List BitSet))) (day apt stop bit : ℕ) :
    Option (List (List (List BitSet))) := do
  let dayArr ← store[day]?
  let aptArr ← dayArr[apt]?
  let bs ← aptArr[stop]?
  pure (store.set day (dayArr.set apt (aptArr.set stop (bs.set bit))))

/-- Whether the bit at store[day][apt][stop][bit] is set (false when any
index is out of bounds); used to state properties of the stores. -/
def getBit3 (store : List (List (List BitSet))) (day apt stop bit : ℕ) :
    Bool :=
  match readBit3 store day apt stop with
  | some bs => bs.memb bit
  | none => false

/-- setConnection of the source, transcribed statement by statement.
The returned state is the state of the JS object when the call returns
or throws: stop validation happens first, then both airports are
auto-registered, then the departure and arrival day indices are computed
and validated, then both bits are written.  When a step throws, the
mutations already performed remain. -/
def ConnectionsStorage.setConnection (st : ConnectionsStorage)
    (c : Connection) : ConnectionsStorage × Option StorageError :=
  match _validateStops c.stops with
  | some e => (st, some e)
  | none =>
    let st := (st.addAirport c.originAirportCode).1
    let st := (st.addAirport c.destinationAirportCode).1
    let conv := st.convertDateToArrayIndex c.date
    match conv.2 with
    | some e => (st, some e)
    | none =>
      let dateIndex := conv.1
      let arrivalDateIndex := dateIndex + c.arriveNextDay
      match _validateDateIndex arrivalDateIndex with
      | some e => (st, some e)
      | none =>
        match mapGet st.airports c.originAirportCode,
              mapGet st.airports c.destinationAirportCode with
        | some originIndex, some destinationIndex =>
          match setBit3 st.outboundStorage arrivalDateIndex.toNat
              destinationIndex c.stops.toNat originIndex with
          | none => (st, some StorageError.typeError)
          | some ob =>
            let st := { st with outboundStorage := ob }
            match setBit3 st.inboundStorage dateIndex.toNat originIndex
                c.stops.toNat destinationIndex with
            | none => (st, some StorageError.typeError)
            | some ib => ({ st with inboundStorage := ib }, none)
        | _, _ => (st, none)

/-- The _prepareOriginVector method: indices of the registered origin
codes (unknown codes filtered out), as a bit vector. -/
def ConnectionsStorage.prepareOriginVector (st : ConnectionsStorage)
    (origins : List String) : BitSet :=
  BitSet.ofList (origins.filterMap (fun origin => mapGet st.airports origin))

/-- Shared body of getOutboundStopsCount and getInboundStopsCount (the
two source methods are verbatim identical up to the store they read):
one-stop hits not already served directly, plus twice the two-stop hits
not served directly or with one stop. -/
def stopsCountOn (store : List (List (List BitSet))) (originsVector : BitSet)
    (idx destinationIndex : ℕ) : Option ℕ := do
  let b0 ← readBit3 store idx destinationIndex 0
  let b1 ← readBit3 store idx destinationIndex 1
  let b2 ← readBit3 store idx destinationIndex 2
  let directNeg := (b0.not).and originsVector
  let oneStopCounter := (b1.and directNeg).cardinality
  let oneStopNeg := b1.not
  let twoStopCounter := ((b2.and directNeg).and oneStopNeg).cardinality * 2
  pure (oneStopCounter + twoStopCounter)

/-- The getOutboundStopsCount method. -/
def ConnectionsStorage.getOutboundStopsCount (st : ConnectionsStorage)
    (originsVector : BitSet) (outboundIndex destinationIndex : ℕ) :
    Option ℕ :=
  stopsCountOn st.outboundStorage originsVector outboundIndex destinationIndex

/-- The getInboundStopsCount method. -/
def ConnectionsStorage.getInboundStopsCount (st : ConnectionsStorage)
    (originsVector : BitSet) (inboundIndex destinationIndex : ℕ) :
    Option ℕ :=
  stopsCountOn st.inboundStorage originsVector inboundIndex destinationIndex

/-- The getUnavailableOrigins method: codes of the origins with no
available connection, in ascending index order, skipping the candidate
airport itself.  The getD default models the JS undefined obtained from
indexing airportsArray out of bounds (unreachable for well-formed
registries since the origins vector only holds registered indices). -/
def ConnectionsStorage.getUnavailableOrigins (st : ConnectionsStorage)
    (availableConnections originsVector : BitSet)
    (currentAirportIndex : ℕ) : List String :=
  (((availableConnections.not).and originsVector).toArray.filter
      (fun arrayIndex => arrayIndex ≠ currentAirportIndex)).map
    (fun arrayIndex => st.airportsArray.getD arrayIndex "")

/-- The sumArray method (reduce with initial accumulator 0). -/
def sumArray (arr : List Int) : Int :=
  arr.foldl (fun accumulator currentValue => accumulator + currentValue) 0

/-- Builds the originsMap of getDestinationsForDatePair: a JS Map from
the (code, count) list, first-seen key order, last-written value. -/
def buildOriginsMap (origins : List OriginInput) : List (String × Int) :=
  origins.foldl (fun m o => mapSetI m o.code o.count) []

/-- Per-candidate mutable state of one shoulder loop: the union of
connections seen so far, the served-origin count, the accumulated stops
and the accumulated weighted shoulder nights. -/
structure ShoulderAcc where
  available : BitSet
  count : ℕ
  totalStops : ℕ
  shoulderNights : Int
deriving DecidableEq

/-- Index conversion for a shoulder day: a negative JS array index reads
undefined and the subsequent member access throws, modelled by none. -/
def intIdx (n : Int) : Option ℕ := if n < 0 then none else some n.toNat

/-- One iteration (shoulder distance j) of a shoulder loop of
getDestinationsForDatePair.  The outbound and inbound loop bodies of the
source are identical up to the store read, the probed day
(dayOf j = anchor - j outbound, anchor + j inbound) and the extra
conjunct of the inner guard (absent outbound, max > 0 inbound), all
passed as parameters.  The weight of a newly served origin is looked up
in originsMap through airportsArray; the source asserts the lookup is
defined (the ! postfix), modelled by getD 0 (the lookup always succeeds
for a well-formed registry, since temp only holds origin indices). -/
def shoulderStep (store : List (List (List BitSet)))
    (airportsArray : List String) (originsMap : List (String × Int))
    (originsVector : BitSet) (originsLen : ℕ) (dayOf : ℕ → Int)
    (extraGuard : Bool) (i j : ℕ) (acc : ShoulderAcc) :
    Option ShoulderAcc :=
  if decide (acc.count < originsLen) && extraGuard then do
    let day ← intIdx (dayOf j)
    let b0 ← readBit3 store day i 0
    let b1 ← readBit3 store day i 1
    let b2 ← readBit3 store day i 2
    let aocSn := (b0.or b1).or b2
    let currentRequiredOrigins := (acc.available.not).and originsVector
    let stopsAdd ← stopsCountOn store currentRequiredOrigins day i
    let temp := aocSn.and currentRequiredOrigins
    let temporaryCardinality := temp.cardinality
    let nightsAdd := sumArray (temp.toArray.map
        (fun ind => (mapGetI originsMap (airportsArray.getD ind "")).getD 0))
      * (j : Int)
    pure { available := acc.available.or aocSn
           count := acc.count + temporaryCardinality
           totalStops := acc.totalStops + stopsAdd
           shoulderNights := acc.shoulderNights + nightsAdd }
  else pure acc

/-- A shoulder loop running iterations j = 1 .. m in increasing order
(the source for-loop), threading the accumulator, propagating a thrown
TypeError as none. -/
def shoulderLoop (store : List (List (List BitSet)))
    (airportsArray : List String) (originsMap : List (String × Int))
    (originsVector : BitSet) (originsLen : ℕ) (dayOf : ℕ → Int)
    (extraGuard : Bool) (i : ℕ) : ℕ → ShoulderAcc → Option ShoulderAcc
  | 0, acc => some acc
  | k + 1, acc =>
    (shoulderLoop store airportsArray originsMap originsVector originsLen
        dayOf extraGuard i k acc).bind
      (shoulderStep store airportsArray originsMap originsVector originsLen
        dayOf extraGuard i (k + 1))

/-- The body of the candidate loop of getDestinationsForDatePair for one
candidate index i: anchor-day unions, counts and stop scores for both
directions, the two shoulder loops with their guards as in the source
(the outbound loop runs only when outboundCount < origins.length and
maxOutboundShoulderNights > 0; the inbound loop is entered when
inboundCount < origins.length, its inner guard also requiring
maxInboundShoulderNights > 0), then the emitted Destination record. -/
def ConnectionsStorage.computeCandidate (st : ConnectionsStorage)
    (originsMap : List (String × Int)) (originsVector : BitSet)
    (originsLen : ℕ) (outboundIndex inboundIndex : ℕ)
    (maxOutboundShoulderNights maxInboundShoulderNights : Int) (i : ℕ) :
    Option Destination := do
  let o0 ← readBit3 st.outboundStorage outboundIndex i 0
  let o1 ← readBit3 st.outboundStorage outboundIndex i 1
  let o2 ← readBit3 st.outboundStorage outboundIndex i 2
  let availableOutboundConnections := (o0.or o1).or o2
  let outboundCount :=
    (availableOutboundConnections.and originsVector).cardinality
  let totalOutboundStops ←
    st.getOutboundStopsCount originsVector outboundIndex i
  let accOut0 : ShoulderAcc :=
    { available := availableOutboundConnections
      count := outboundCount
      totalStops := totalOutboundStops
      shoulderNights := 0 }
  let accOutOpt : Option ShoulderAcc :=
    if outboundCount < originsLen ∧ maxOutboundShoulderNights > 0 then
      shoulderLoop st.outboundStorage st.airportsArray originsMap
        originsVector originsLen (fun j => (outboundIndex : Int) - (j : Int))
        true i maxOutboundShoulderNights.toNat accOut0
    else pure accOut0
  let accOut ← accOutOpt
  let i0 ← readBit3 st.inboundStorage inboundIndex i 0
  let i1 ← readBit3 st.inboundStorage inboundIndex i 1
  let i2 ← readBit3 st.inboundStorage inboundIndex i 2
  let availableInboundConnections := (i0.or i1).or i2
  let inboundCount :=
    (availableInboundConnections.and originsVector).cardinality
  let totalInboundStops ←
    st.getInboundStopsCount originsVector inboundIndex i
  let accIn0 : ShoulderAcc :=
    { available := availableInboundConnections
      count := inboundCount
      totalStops := totalInboundStops
      shoulderNights := 0 }
  let accInOpt : Option ShoulderAcc :=
    if inboundCount < originsLen then
      shoulderLoop st.inboundStorage st.airportsArray originsMap
        originsVector originsLen (fun j => (inboundIndex : Int) + (j : Int))
        (decide (maxInboundShoulderNights > 0)) i
        maxInboundShoulderNights.toNat accIn0
    else pure accIn0
  let accIn ← accInOpt
  pure { code := st.airportsArray.getD i ""
         availableOrigins := accOut.count + accIn.count
         totalStops := accOut.totalStops + accIn.totalStops
         unavailableOutboundOrigins :=
           st.getUnavailableOrigins accOut.available originsVector i
         outboundShoulderNights := accOut.shoulderNights
         unavailableInboundOrigins :=
           st.getUnavailableOrigins accIn.available originsVector i
         inboundShoulderNights := accIn.shoulderNights }

/-- The candidate loop of getDestinationsForDatePair: origin map and
vector, the two anchor-day indices with their validation, then one
Destination record per registered airport index, in registry order
(before the final sort and truncation). -/
def ConnectionsStorage.rankCandidates (st : ConnectionsStorage)
    (origins : List OriginInput) (meetingStart meetingEnd : Int)
    (maxOutboundShoulderNights maxInboundShoulderNights : Int) :
    Except StorageError (List Destination) :=
  let originsMap := buildOriginsMap origins
  let originsVector := st.prepareOriginVector (originsMap.map Prod.fst)
  let outConv := st.convertDateToArrayIndex meetingStart
  match outConv.2 with
  | some e => Except.error e
  | none =>
    let inConv := st.convertDateToArrayIndex meetingEnd
    match inConv.2 with
    | some e => Except.error e
    | none =>
      match (List.range st.airports.length).mapM
          (fun i => st.computeCandidate originsMap originsVector
            origins.length outConv.1.toNat inConv.1.toNat
            maxOutboundShoulderNights maxInboundShoulderNights i) with
      | some l => Except.ok l
      | none => Except.error StorageError.typeError

/-- The order of the final sort: the source sorts with the comparator
(a, b) => b.availableOrigins - a.availableOrigins, i.e. descending on
availableOrigins with ties kept in input order (the JS array sort is
required to be stable). -/
def destR (a b : Destination) : Prop :=
  b.availableOrigins ≤ a.availableOrigins

instance : DecidableRel destR := fun a b =>
  inferInstanceAs (Decidable (b.availableOrigins ≤ a.availableOrigins))

instance : IsTotal Destination destR :=
  ⟨fun a b => Nat.le_total b.availableOrigins a.availableOrigins⟩

instance : IsTrans Destination destR :=
  ⟨fun _ _ _ h1 h2 => Nat.le_trans h2 h1⟩

/-- getDestinationsForDatePair: the candidate loop, then the stable
descending sort on availableOrigins (modelled by insertion sort, which
is stable, hence produces the list the JS stable comparator sort
produces), then truncation to the first take records when take > 0
(take = 0, or any non-positive take, returns all). -/
def ConnectionsStorage.getDestinationsForDatePair (st : ConnectionsStorage)
    (origins : List OriginInput) (meetingStart meetingEnd : Int)
    (maxOutboundShoulderNights maxInboundShoulderNights tak : Int) :
    Except StorageError (List Destination) :=
  match st.rankCandidates origins meetingStart meetingEnd
      maxOutboundShoulderNights maxInboundShoulderNights with
  | Except.error e => Except.error e
  | Except.ok result =>
    let sorted := result.insertionSort destR
    if tak > 0 then Except.ok (sorted.take tak.toNat)
    else Except.ok sorted

/-- Folding a list of setConnection calls over a store, keeping the
state each call leaves behind (a JS caller that catches exceptions). -/
def applyConnections (st : ConnectionsStorage) (cs : List Connection) :
    ConnectionsStorage :=
  cs.foldl (fun s c => (s.setConnection c).1) st

/-- The state after the two airport auto-registrations performed by
setConnection (before any validation of the date or writing of bits). -/
def ConnectionsStorage.addBoth (st : ConnectionsStorage) (c : Connection) :
    ConnectionsStorage :=
  ((st.addAirport c.originAirportCode).1.addAirport
    c.destinationAirportCode).1

/-- The departure day index of a connection relative to a store's start
date, as the source computes it. -/
def ConnectionsStorage.dayIndexOf (st : ConnectionsStorage)
    (c : Connection) : Int :=
  Int.fdiv (c.date - st.startDate) 86400000

/-- All bit vectors of a store are finite (no complemented vector is
stored).  Every reachable store satisfies this: setConnection only ever
stores results of BitSet.set on stored vectors, starting from empty. -/
def allFiniteStore (store : List (List (List BitSet))) : Bool :=
  store.all (fun dayArr => dayArr.all (fun aptArr => aptArr.all (fun b => !b.inf)))

/-- Whether bit n is set in the stop tier s of candidate a on (possibly
negative, hence absent) day day of a store. -/
def tierMem (store : List (List (List BitSet))) (day : Int) (a s n : ℕ) :
    Bool :=
  if day < 0 then false
  else
    match readBit3 store day.toNat a s with
    | some b => b.memb n
    | none => false

/-- Modelled from the spec (P8 and section 4.4): origin n is served for
candidate i at shoulder distance j (j = 0 being the anchor day itself)
when some stop tier of the day dayOf j holds its bit. -/
def servedAt (store : List (List (List BitSet))) (dayOf : ℕ → Int)
    (i j n : ℕ) : Bool :=
  tierMem store (dayOf j) i 0 n || tierMem store (dayOf j) i 1 n ||
    tierMem store (dayOf j) i 2 n

/-- Modelled from the spec (P8): the distance at which origin n is first
served for candidate i within shoulder tolerance m - zero when it is
served on the anchor day itself, the least j in 1..m serving it
otherwise, and zero again when it is never served (no night is spent). -/
def firstServedDistance (store : List (List (List BitSet)))
    (dayOf : ℕ → Int) (i m n : ℕ) : ℕ :=
  if servedAt store dayOf i 0 n then 0
  else ((List.range' 1 m).find? (fun j => servedAt store dayOf i j n)).getD 0

/-- The weight the ranking engine attaches to origin index n: the
originsMap count of the code registered at n. -/
def originWeight (airportsArray : List String)
    (originsMap : List (String × Int)) (n : ℕ) : Int :=
  (mapGetI originsMap (airportsArray.getD n "")).getD 0

/-- Epoch milliseconds of midnight UTC k days after 2025-01-01 (epoch
day 20089): the dates of the test fixture. -/
def dms (k : Int) : Int := (20089 + k) * 86400000

/-- A fixture connection departing k days after 2025-01-01, arriving the
same day. -/
def fixConn (o d : String) (day : Int) (stops : Int) : Connection :=
  { originAirportCode := o
    destinationAirportCode := d
    date := dms day
    stops := stops
    arriveNextDay := 0 }

/-- The six connections of the repository test fixture, in insertion
order. -/
def fixtureConnections : List Connection :=
  [fixConn "AAA" "CCC" 8 2, fixConn "AAA" "DDD" 9 0,
   fixConn "BBB" "CCC" 9 1, fixConn "CCC" "AAA" 14 1,
   fixConn "DDD" "AAA" 14 0, fixConn "CCC" "BBB" 15 0]

/-- The fixture store: initialized at 2025-01-01 with the six fixture
connections inserted. -/
def fixtureStore : ConnectionsStorage :=
  applyConnections (ConnectionsStorage.init (dms 0)) fixtureConnections

/-- The fixture query origins. -/
def fixtureOrigins : List OriginInput :=
  [⟨"AAA", 2⟩, ⟨"BBB", 1⟩, ⟨"CCC", 1⟩]

set_option maxRecDepth 1000000

/-- C1: with the store initialized at 2025-01-01 and exactly the six
fixture connections inserted, the call
getDestinationsForDatePair([(AAA,2),(BBB,1),(CCC,1)], 2025-01-10,
2025-01-15, 1, 1, 0) returns exactly the four Destination records of
spec section 8, in that order. -/
theorem C1_end_to_end_fixture :
    fixtureStore.getDestinationsForDatePair fixtureOrigins
      (dms 9) (dms 14) 1 1 0 =
    Except.ok
      [⟨"CCC", 4, 4, [], 2, [], 1⟩,
       ⟨"DDD", 2, 0, ["CCC", "BBB"], 0, ["CCC", "BBB"], 0⟩,
       ⟨"AAA", 0, 0, ["CCC", "BBB"], 0, ["CCC", "BBB"], 0⟩,
       ⟨"BBB", 0, 0, ["AAA", "CCC"], 0, ["AAA", "CCC"], 0⟩] := by
  rfl

/-- C2 counterexample: a setConnection call that fails with the
date-out-of-range error does not leave the entire state unchanged: on an
empty store, inserting a connection between two fresh codes dated 400
days after the start date throws, yet the airport registry has been
mutated by the call. -/
theorem C2_counterexample :
    (((ConnectionsStorage.init 0).setConnection
        ⟨"AAA", "BBB", 400 * 86400000, 0, 0⟩).2 =
      some StorageError.dateOutOfRange) ∧
    ((ConnectionsStorage.init 0).setConnection
        ⟨"AAA", "BBB", 400 * 86400000, 0, 0⟩).1 ≠
      ConnectionsStorage.init 0 := by
  constructor
  · rfl
  · decide

/-- C3: the code does not reject a day index equal to MAX_DAYS = 360
with a date-out-of-range error.  The validation accepts index 360 (its
condition is index > 360), and the subsequent write at day 360 falls
outside the 360 allocated day slots, surfacing as a TypeError instead:
a connection departing exactly 360 days after the start date fails with
typeError, not dateOutOfRange. -/
theorem C3_day_index_360_not_rejected :
    _validateDateIndex 360 = none ∧
    ((ConnectionsStorage.init 0).setConnection
        ⟨"AAA", "BBB", 360 * 86400000, 0, 0⟩).2 =
      some StorageError.typeError := by
  exact ⟨rfl, rfl⟩

/-- C10: a call that passes stop and date validation can still fail to
write both bits.  With departure day 359 and arriveNextDay 1 both
validations pass (the arrival index 360 is accepted by the buggy bound)
and both registry lookups succeed, yet the outbound write at day 360 is
out of bounds, the call throws a TypeError, and neither bit is set. -/
theorem C10_validated_write_fails_at_horizon :
    _validateStops (0 : Int) = none ∧
    _validateDateIndex 359 = none ∧
    _validateDateIndex 360 = none ∧
    mapGet ((((ConnectionsStorage.init 0).addAirport "AAA").1.addAirport
        "BBB").1).airports "AAA" = some 0 ∧
    mapGet ((((ConnectionsStorage.init 0).addAirport "AAA").1.addAirport
        "BBB").1).airports "BBB" = some 1 ∧
    (((ConnectionsStorage.init 0).setConnection
        ⟨"AAA", "BBB", 359 * 86400000, 0, 1⟩).2 =
      some StorageError.typeError) ∧
    getBit3 (((ConnectionsStorage.init 0).setConnection
        ⟨"AAA", "BBB", 359 * 86400000, 0, 1⟩).1).outboundStorage
      360 1 0 0 = false ∧
    getBit3 (((ConnectionsStorage.init 0).setConnection
        ⟨"AAA", "BBB", 359 * 86400000, 0, 1⟩).1).inboundStorage
      359 0 0 1 = false := by
  exact ⟨rfl, rfl, rfl, rfl, rfl, rfl, rfl, rfl⟩

theorem validateStops_some {s : Int} {e : StorageError}
    (h : _validateStops s = some e) : e = StorageError.invalidStops := by
  unfold _validateStops at h
  split at h
  · exact (Option.some_inj.mp h).symm
  · exact absurd h (by simp)

theorem validateDateIndex_some {i : Int} {e : StorageError}
    (h : _validateDateIndex i = some e) : e = StorageError.dateOutOfRange := by
  unfold _validateDateIndex at h
  split at h
  · exact (Option.some_inj.mp h).symm
  · exact absurd h (by simp)

/-- C2 (amended): a setConnection call failing on stop validation leaves
the state fully unchanged, while one failing on date validation leaves
the state exactly as produced by the two airport auto-registrations: the
registry may have gained the two codes (with their fresh empty rows in
both stores), and no connection bit has been written. -/
theorem C2_failed_setConnection_state (st : ConnectionsStorage)
    (c : Connection) (e : StorageError)
    (h : (st.setConnection c).2 = some e)
    (hne : e ≠ StorageError.typeError) :
    (e = StorageError.invalidStops ∧ (st.setConnection c).1 = st) ∨
    (e = StorageError.dateOutOfRange ∧
      (st.setConnection c).1 =
        ((st.addAirport c.originAirportCode).1.addAirport
          c.destinationAirportCode).1) := by
  unfold ConnectionsStorage.setConnection at h ⊢
  cases hv : _validateStops c.stops with
  | some e0 =>
    simp only [hv] at h ⊢
    exact Or.inl ⟨(Option.some_inj.mp h) ▸ validateStops_some hv,
      by simp⟩
  | none =>
    simp only [hv] at h ⊢
    set st2 := ((st.addAirport c.originAirportCode).1.addAirport
      c.destinationAirportCode).1 with hst2
    cases hc : (st2.convertDateToArrayIndex c.date).2 with
    | some e1 =>
      simp only [hc] at h ⊢
      refine Or.inr ⟨?_, by simp⟩
      have : e1 = StorageError.dateOutOfRange := by
        have := hc
        unfold ConnectionsStorage.convertDateToArrayIndex at this
        exact validateDateIndex_some this
      exact (Option.some_inj.mp h) ▸ this
    | none =>
      simp only [hc] at h ⊢
      cases ha : _validateDateIndex
          ((st2.convertDateToArrayIndex c.date).1 + c.arriveNextDay) with
      | some e2 =>
        simp only [ha] at h ⊢
        exact Or.inr ⟨(Option.some_inj.mp h) ▸ validateDateIndex_some ha,
          by simp⟩
      | none =>
        simp only [ha] at h ⊢
        cases ho : mapGet st2.airports c.originAirportCode with
        | none =>
          cases hd : mapGet st2.airports c.destinationAirportCode <;>
            simp [ho, hd] at h
        | some oi =>
          cases hd : mapGet st2.airports c.destinationAirportCode with
          | none => simp [ho, hd] at h
          | some di =>
            simp only [ho, hd] at h ⊢
            cases hob : setBit3 st2.outboundStorage
                ((st2.convertDateToArrayIndex c.date).1 +
                  c.arriveNextDay).toNat di c.stops.toNat oi with
            | none =>
              simp only [hob] at h
              exact absurd (Option.some_inj.mp h).symm hne
            | some ob =>
              simp only [hob] at h
              cases hib : setBit3 st2.inboundStorage
                  (st2.convertDateToArrayIndex c.date).1.toNat oi
                  c.stops.toNat di with
              | none =>
                simp only [hib] at h
                exact absurd (Option.some_inj.mp h).symm hne
              | some ib =>
                simp only [hib] at h
                exact absurd h (by simp)

theorem C2_witness :
    (((ConnectionsStorage.init 0).setConnection
        ⟨"AAA", "BBB", 400 * 86400000, 0, 0⟩).2 =
      some StorageError.dateOutOfRange) ∧
    ((StorageError.dateOutOfRange = StorageError.invalidStops ∧
        ((ConnectionsStorage.init 0).setConnection
          ⟨"AAA", "BBB", 400 * 86400000, 0, 0⟩).1 =
          ConnectionsStorage.init 0) ∨
      (StorageError.dateOutOfRange = StorageError.dateOutOfRange ∧
        ((ConnectionsStorage.init 0).setConnection
          ⟨"AAA", "BBB", 400 * 86400000, 0, 0⟩).1 =
          (((ConnectionsStorage.init 0).addAirport "AAA").1.addAirport
            "BBB").1)) :=
  ⟨rfl, C2_failed_setConnection_state (ConnectionsStorage.init 0)
    ⟨"AAA", "BBB", 400 * 86400000, 0, 0⟩ StorageError.dateOutOfRange rfl
    (by decide)⟩

theorem List.set_of_getElem? {α : Type _} {l : List α} {i : ℕ} {v : α}
    (h : l[i]? = some v) : l.set i v = l := by
  induction l generalizing i with
  | nil => simp at h
  | cons x xs ih =>
    cases i with
    | zero => simp at h; simp [h]
    | succ k => simp only [List.getElem?_cons_succ] at h; simp [ih h]

theorem mapGet_mapHas {m : List (String × ℕ)} {k : String} {v : ℕ}
    (h : mapGet m k = some v) : mapHas m k = true := by
  unfold mapGet at h
  unfold mapHas
  cases hf : m.find? (fun p => p.1 == k) with
  | none => rw [hf] at h; simp at h
  | some p => simp

theorem mapGet_append_of_some {m l : List (String × ℕ)} {k : String}
    {v : ℕ} (h : mapGet m k = some v) : mapGet (m ++ l) k = some v := by
  unfold mapGet at h ⊢
  rw [List.find?_append]
  cases hf : m.find? (fun p => p.1 == k) with
  | none => rw [hf] at h; simp at h
  | some p => rw [hf] at h; simpa using h

theorem mapGet_append_self {m : List (String × ℕ)} {k : String} {v : ℕ}
    (h : mapHas m k = false) : mapGet (m ++ [(k, v)]) k = some v := by
  unfold mapHas at h
  unfold mapGet
  rw [List.find?_append]
  cases hf : m.find? (fun p => p.1 == k) with
  | none => simp
  | some p => rw [hf] at h; simp at h

theorem addAirport_of_has {st : ConnectionsStorage} {k : String}
    (h : mapHas st.airports k = true) : st.addAirport k = (st, false) := by
  unfold ConnectionsStorage.addAirport
  simp [h]

theorem addAirport_startDate (st : ConnectionsStorage) (k : String) :
    ((st.addAirport k).1).startDate = st.startDate := by
  unfold ConnectionsStorage.addAirport
  split <;> rfl

theorem mapGet_addAirport_mono {st : ConnectionsStorage} {k : String}
    {v : ℕ} (k' : String) (h : mapGet st.airports k = some v) :
    mapGet ((st.addAirport k').1).airports k = some v := by
  unfold ConnectionsStorage.addAirport
  split
  · exact h
  · exact mapGet_append_of_some h

theorem mapGet_addAirport_self (st : ConnectionsStorage) (k : String) :
    ∃ v, mapGet ((st.addAirport k).1).airports k = some v := by
  cases hh : mapHas st.airports k with
  | true =>
    rw [addAirport_of_has hh]
    have hh2 := hh
    unfold mapHas at hh2
    cases hf : st.airports.find? (fun p => p.1 == k) with
    | none => rw [hf] at hh2; simp at hh2
    | some p => exact ⟨p.2, by unfold mapGet; rw [hf]; rfl⟩
  | false =>
    unfold ConnectionsStorage.addAirport
    simp only [hh, Bool.false_eq_true, if_false]
    exact ⟨st.airports.length, mapGet_append_self hh⟩

theorem lookup_after_double_add (st : ConnectionsStorage) (a b : String) :
    (∃ v, mapGet (((st.addAirport a).1.addAirport b).1).airports a = some v)
    ∧
    ∃ w, mapGet (((st.addAirport a).1.addAirport b).1).airports b = some w
    := by
  constructor
  · obtain ⟨v, hv⟩ := mapGet_addAirport_self st a
    exact ⟨v, mapGet_addAirport_mono b hv⟩
  · exact mapGet_addAirport_self (st.addAirport a).1 b

theorem BitSet.set_idem (b : BitSet) (i : ℕ) :
    (b.set i).set i = b.set i := by
  unfold BitSet.set
  cases h : b.inf <;> simp [h, Finset.erase_idem, Finset.insert_idem]

theorem setBit3_some_getElem {store : List (List (List BitSet))}
    {day apt stop bit : ℕ} {store' : List (List (List BitSet))}
    (h : setBit3 store day apt stop bit = some store') :
    ∃ dayArr aptArr bs,
      store[day]? = some dayArr ∧ dayArr[apt]? = some aptArr ∧
      aptArr[stop]? = some bs ∧
      store' = store.set day
        (dayArr.set apt (aptArr.set stop (bs.set bit))) := by
  unfold setBit3 at h
  cases h1 : store[day]? with
  | none => rw [h1] at h; simp at h
  | some dayArr =>
    rw [h1] at h
    simp only [Option.bind_eq_bind, Option.some_bind] at h
    cases h2 : dayArr[apt]? with
    | none => rw [h2] at h; simp at h
    | some aptArr =>
      rw [h2] at h
      simp only [Option.some_bind] at h
      cases h3 : aptArr[stop]? with
      | none => rw [h3] at h; simp at h
      | some bs =>
        rw [h3] at h
        simp only [Option.some_bind, Option.pure_def, Option.some_inj] at h
        exact ⟨dayArr, aptArr, bs, rfl, h2, h3, h.symm⟩

theorem setBit3_idem {store : List (List (List BitSet))}
    {day apt stop bit : ℕ} {store' : List (List (List BitSet))}
    (h : setBit3 store day apt stop bit = some store') :
    setBit3 store' day apt stop bit = some store' := by
  obtain ⟨dayArr, aptArr, bs, h1, h2, h3, hw⟩ := setBit3_some_getElem h
  have hday : day < store.length := by
    by_contra hc
    rw [List.getElem?_eq_none (Nat.le_of_not_lt hc)] at h1
    exact Option.noConfusion h1
  have hapt : apt < dayArr.length := by
    by_contra hc
    rw [List.getElem?_eq_none (Nat.le_of_not_lt hc)] at h2
    exact Option.noConfusion h2
  have hstop : stop < aptArr.length := by
    by_contra hc
    rw [List.getElem?_eq_none (Nat.le_of_not_lt hc)] at h3
    exact Option.noConfusion h3
  unfold setBit3
  rw [hw]
  simp only [Option.bind_eq_bind]
  rw [List.getElem?_set_self (by simpa using hday)]
  simp only [Option.some_bind]
  rw [List.getElem?_set_self (by simpa using hapt)]
  simp only [Option.some_bind]
  rw [List.getElem?_set_self (by simpa using hstop)]
  simp only [Option.some_bind, Option.pure_def, Option.some_inj]
  rw [BitSet.set_idem]
  rw [List.set_set, List.set_set, List.set_set]

theorem addBoth_startDate (st : ConnectionsStorage) (c : Connection) :
    (st.addBoth c).startDate = st.startDate := by
  unfold ConnectionsStorage.addBoth
  rw [addAirport_startDate, addAirport_startDate]

theorem convert_fst (st : ConnectionsStorage) (d : Int) :
    (st.convertDateToArrayIndex d).1 = Int.fdiv (d - st.startDate) 86400000
    := rfl

theorem convert_snd (st : ConnectionsStorage) (d : Int) :
    (st.convertDateToArrayIndex d).2 =
      _validateDateIndex (Int.fdiv (d - st.startDate) 86400000) := rfl

theorem setConnection_ok {st : ConnectionsStorage} {c : Connection}
    (h : (st.setConnection c).2 = none) :
    ∃ oi di ob ib,
      _validateStops c.stops = none ∧
      _validateDateIndex (st.dayIndexOf c) = none ∧
      _validateDateIndex (st.dayIndexOf c + c.arriveNextDay) = none ∧
      mapGet (st.addBoth c).airports c.originAirportCode = some oi ∧
      mapGet (st.addBoth c).airports c.destinationAirportCode = some di ∧
      setBit3 (st.addBoth c).outboundStorage
        (st.dayIndexOf c + c.arriveNextDay).toNat di c.stops.toNat oi =
        some ob ∧
      setBit3 (st.addBoth c).inboundStorage (st.dayIndexOf c).toNat oi
        c.stops.toNat di = some ib ∧
      (st.setConnection c).1 =
        { st.addBoth c with outboundStorage := ob, inboundStorage := ib }
    := by
  have hconv1 : ((st.addBoth c).convertDateToArrayIndex c.date).1 =
      st.dayIndexOf c := by
    rw [convert_fst, addBoth_startDate]; rfl
  have hconv2 : ((st.addBoth c).convertDateToArrayIndex c.date).2 =
      _validateDateIndex (st.dayIndexOf c) := by
    rw [convert_snd, addBoth_startDate]; rfl
  unfold ConnectionsStorage.setConnection at h ⊢
  cases hv : _validateStops c.stops with
  | some e0 => rw [hv] at h; simp at h
  | none =>
    simp only [hv] at h ⊢
    have hBoth : ((st.addAirport c.originAirportCode).1.addAirport
        c.destinationAirportCode).1 = st.addBoth c := rfl
    rw [hBoth] at h ⊢
    cases hc : ((st.addBoth c).convertDateToArrayIndex c.date).2 with
    | some e1 => rw [hc] at h; simp at h
    | none =>
      simp only [hc] at h ⊢
      cases ha : _validateDateIndex
          (((st.addBoth c).convertDateToArrayIndex c.date).1 +
            c.arriveNextDay) with
      | some e2 => rw [ha] at h; simp at h
      | none =>
        simp only [ha] at h ⊢
        obtain ⟨⟨oi, hoi⟩, ⟨di, hdi⟩⟩ :=
          lookup_after_double_add st c.originAirportCode
            c.destinationAirportCode
        rw [hBoth] at hoi hdi
        simp only [hoi, hdi] at h ⊢
        cases hob : setBit3 (st.addBoth c).outboundStorage
            (((st.addBoth c).convertDateToArrayIndex c.date).1 +
              c.arriveNextDay).toNat di c.stops.toNat oi with
        | none => rw [hob] at h; simp at h
        | some ob =>
          simp only [hob] at h ⊢
          cases hib : setBit3 (st.addBoth c).inboundStorage
              ((st.addBoth c).convertDateToArrayIndex c.date).1.toNat oi
              c.stops.toNat di with
          | none => rw [hib] at h; simp at h
          | some ib =>
            simp only [hib] at h ⊢
            refine ⟨oi, di, ob, ib, trivial, ?_, ?_, rfl, rfl, ?_, ?_,
              rfl⟩
            · rw [← hconv2]; exact hc
            · rw [← hconv1]; exact ha
            · rw [← hconv1]; exact hob
            · rw [← hconv1]; exact hib

/-- C8: setConnection is idempotent.  If a call succeeds, repeating the
same call on the resulting state succeeds and leaves the state (registry
and both bit stores) exactly as after the first call. -/
theorem C8_idempotent (st : ConnectionsStorage) (c : Connection)
    (h : (st.setConnection c).2 = none) :
    ((st.setConnection c).1).setConnection c = ((st.setConnection c).1, none)
    := by
  obtain ⟨oi, di, ob, ib, hv, hd1, hd2, hoi, hdi, hob, hib, hst⟩ :=
    setConnection_ok h
  set stf := (st.setConnection c).1 with hstf
  have hair : stf.airports = (st.addBoth c).airports := by rw [hst]
  have hstart : stf.startDate = st.startDate := by
    rw [hst]
    exact addBoth_startDate st c
  have hout : stf.outboundStorage = ob := by rw [hst]
  have hin : stf.inboundStorage = ib := by rw [hst]
  have ha1 : stf.addAirport c.originAirportCode = (stf, false) :=
    addAirport_of_has (mapGet_mapHas (hair ▸ hoi))
  have ha2 : stf.addAirport c.destinationAirportCode = (stf, false) :=
    addAirport_of_has (mapGet_mapHas (hair ▸ hdi))
  have hc1 : (stf.convertDateToArrayIndex c.date).1 = st.dayIndexOf c := by
    rw [convert_fst, hstart]; rfl
  have hc2 : (stf.convertDateToArrayIndex c.date).2 = none := by
    rw [convert_snd, hstart]
    exact hd1
  have hob2 : setBit3 stf.outboundStorage
      (st.dayIndexOf c + c.arriveNextDay).toNat di c.stops.toNat oi =
      some ob := by
    rw [hout]; exact setBit3_idem hob
  have hib2 : setBit3 stf.inboundStorage (st.dayIndexOf c).toNat oi
      c.stops.toNat di = some ib := by
    rw [hin]; exact setBit3_idem hib
  unfold ConnectionsStorage.setConnection
  simp only [hv, ha1, ha2, hc2, hc1, hair, hoi, hdi, hd2, hob2, hib2]
  rw [← hair, ← hout, ← hin]

theorem C8_witness :
    (((ConnectionsStorage.init (dms 0)).setConnection
        (fixConn "AAA" "CCC" 8 2)).2 = none) ∧
    (((ConnectionsStorage.init (dms 0)).setConnection
        (fixConn "AAA" "CCC" 8 2)).1).setConnection
        (fixConn "AAA" "CCC" 8 2) =
      (((ConnectionsStorage.init (dms 0)).setConnection
        (fixConn "AAA" "CCC" 8 2)).1, none) :=
  ⟨rfl, C8_idempotent (ConnectionsStorage.init (dms 0))
    (fixConn "AAA" "CCC" 8 2) rfl⟩

theorem BitSet.memb_set_self (b : BitSet) (i : ℕ) :
    (b.set i).memb i = true := by
  unfold BitSet.set BitSet.memb
  cases h : b.inf <;> simp [h]

theorem BitSet.memb_set_mono {b : BitSet} {n : ℕ} (i : ℕ)
    (h : b.memb n = true) : (b.set i).memb n = true := by
  unfold BitSet.memb at h
  cases hb : b.inf
  · rw [hb] at h
    have hn : n ∈ b.s := by simpa using h
    simp [BitSet.set, BitSet.memb, hb, hn]
  · rw [hb] at h
    have hn : n ∉ b.s := by simpa using h
    simp [BitSet.set, BitSet.memb, hb, Finset.mem_erase, hn]

theorem readBit3_append_map {store : List (List (List BitSet))}
    {day apt stop : ℕ} {b : BitSet} (x : List BitSet)
    (h : readBit3 store day apt stop = some b) :
    readBit3 (store.map (fun dayArr => dayArr ++ [x])) day apt stop =
      some b := by
  unfold readBit3 at h ⊢
  cases h1 : store[day]? with
  | none => rw [h1] at h; simp at h
  | some dayArr =>
    rw [h1] at h
    simp only [Option.bind_eq_bind, Option.some_bind] at h
    rw [List.getElem?_map, h1]
    simp only [Option.map_some', Option.bind_eq_bind, Option.some_bind]
    cases h2 : dayArr[apt]? with
    | none => rw [h2] at h; simp at h
    | some aptArr =>
      rw [h2] at h
      have hlt : apt < dayArr.length := by
        by_contra hc
        rw [List.getElem?_eq_none (Nat.le_of_not_lt hc)] at h2
        exact Option.noConfusion h2
      rw [List.getElem?_append_left hlt, h2]
      simpa using h

theorem getBit3_addAirport_out {st : ConnectionsStorage} {k : String}
    {day apt stop bit : ℕ}
    (h : getBit3 st.outboundStorage day apt stop bit = true) :
    getBit3 ((st.addAirport k).1).outboundStorage day apt stop bit = true
    := by
  unfold ConnectionsStorage.addAirport
  cases hh : mapHas st.airports k with
  | true => simpa using h
  | false =>
    simp only [hh, Bool.false_eq_true, if_false]
    unfold getBit3 at h ⊢
    cases hr : readBit3 st.outboundStorage day apt stop with
    | none => rw [hr] at h; simp at h
    | some b =>
      rw [hr] at h
      rw [readBit3_append_map _ hr]
      exact h

theorem getBit3_addAirport_in {st : ConnectionsStorage} {k : String}
    {day apt stop bit : ℕ}
    (h : getBit3 st.inboundStorage day apt stop bit = true) :
    getBit3 ((st.addAirport k).1).inboundStorage day apt stop bit = true
    := by
  unfold ConnectionsStorage.addAirport
  cases hh : mapHas st.airports k with
  | true => simpa using h
  | false =>
    simp only [hh, Bool.false_eq_true, if_false]
    unfold getBit3 at h ⊢
    cases hr : readBit3 st.inboundStorage day apt stop with
    | none => rw [hr] at h; simp at h
    | some b =>
      rw [hr] at h
      rw [readBit3_append_map _ hr]
      exact h

theorem getBit3_setBit3_mono {store store' : List (List (List BitSet))}
    {d a s b : ℕ} (hw : setBit3 store d a s b = some store')
    {day apt stop bit : ℕ}
    (h : getBit3 store day apt stop bit = true) :
    getBit3 store' day apt stop bit = true := by
  obtain ⟨dayArr, aptArr, bs, h1, h2, h3, hs⟩ := setBit3_some_getElem hw
  have hdl : d < store.length := by
    by_contra hc
    rw [List.getElem?_eq_none (Nat.le_of_not_lt hc)] at h1
    exact Option.noConfusion h1
  have hal : a < dayArr.length := by
    by_contra hc
    rw [List.getElem?_eq_none (Nat.le_of_not_lt hc)] at h2
    exact Option.noConfusion h2
  have hsl : s < aptArr.length := by
    by_contra hc
    rw [List.getElem?_eq_none (Nat.le_of_not_lt hc)] at h3
    exact Option.noConfusion h3
  subst hs
  unfold getBit3 readBit3 at h ⊢
  by_cases hd : d = day
  · subst hd
    rw [List.getElem?_set_self hdl]
    rw [h1] at h
    simp only [Option.bind_eq_bind, Option.some_bind] at h ⊢
    by_cases hap : a = apt
    · subst hap
      rw [List.getElem?_set_self hal]
      rw [h2] at h
      simp only [Option.some_bind] at h ⊢
      by_cases hsp : s = stop
      · subst hsp
        rw [List.getElem?_set_self hsl]
        rw [h3] at h
        show (bs.set b).memb bit = true
        exact BitSet.memb_set_mono b h
      · rw [List.getElem?_set_ne hsp]
        exact h
    · rw [List.getElem?_set_ne hap]
      exact h
  · rw [List.getElem?_set_ne hd]
    exact h

theorem setConnection_mono (st : ConnectionsStorage) (c : Connection) :
    (∀ k v, mapGet st.airports k = some v →
        mapGet ((st.setConnection c).1).airports k = some v) ∧
    (∀ day apt stop bit, getBit3 st.outboundStorage day apt stop bit = true →
        getBit3 ((st.setConnection c).1).outboundStorage day apt stop bit
          = true) ∧
    (∀ day apt stop bit, getBit3 st.inboundStorage day apt stop bit = true →
        getBit3 ((st.setConnection c).1).inboundStorage day apt stop bit
          = true) ∧
    ((st.setConnection c).1).startDate = st.startDate := by
  have habM : ∀ k v, mapGet st.airports k = some v →
      mapGet (st.addBoth c).airports k = some v := by
    intro k v hv
    exact mapGet_addAirport_mono _ (mapGet_addAirport_mono _ hv)
  have habO : ∀ day apt stop bit,
      getBit3 st.outboundStorage day apt stop bit = true →
      getBit3 (st.addBoth c).outboundStorage day apt stop bit = true := by
    intro day apt stop bit hv
    exact getBit3_addAirport_out (getBit3_addAirport_out hv)
  have habI : ∀ day apt stop bit,
      getBit3 st.inboundStorage day apt stop bit = true →
      getBit3 (st.addBoth c).inboundStorage day apt stop bit = true := by
    intro day apt stop bit hv
    exact getBit3_addAirport_in (getBit3_addAirport_in hv)
  have habS : (st.addBoth c).startDate = st.startDate :=
    addBoth_startDate st c
  unfold ConnectionsStorage.setConnection
  cases hv : _validateStops c.stops with
  | some e => exact ⟨fun k v h => h, fun d a s b h => h, fun d a s b h => h,
      rfl⟩
  | none =>
    simp only [hv]
    have hBoth : ((st.addAirport c.originAirportCode).1.addAirport
        c.destinationAirportCode).1 = st.addBoth c := rfl
    rw [hBoth]
    cases hc : ((st.addBoth c).convertDateToArrayIndex c.date).2 with
    | some e1 => exact ⟨habM, habO, habI, habS⟩
    | none =>
      simp only [hc]
      cases ha : _validateDateIndex
          (((st.addBoth c).convertDateToArrayIndex c.date).1 +
            c.arriveNextDay) with
      | some e2 => exact ⟨habM, habO, habI, habS⟩
      | none =>
        simp only [ha]
        cases ho : mapGet (st.addBoth c).airports c.originAirportCode with
        | none =>
          cases hd : mapGet (st.addBoth c).airports
              c.destinationAirportCode <;>
            exact ⟨habM, habO, habI, habS⟩
        | some oi =>
          cases hd : mapGet (st.addBoth c).airports
              c.destinationAirportCode with
          | none => exact ⟨habM, habO, habI, habS⟩
          | some di =>
            simp only
            cases hob : setBit3 (st.addBoth c).outboundStorage
                (((st.addBoth c).convertDateToArrayIndex c.date).1 +
                  c.arriveNextDay).toNat di c.stops.toNat oi with
            | none => exact ⟨habM, habO, habI, habS⟩
            | some ob =>
              simp only
              cases hib : setBit3 (st.addBoth c).inboundStorage
                  ((st.addBoth c).convertDateToArrayIndex c.date).1.toNat
                  oi c.stops.toNat di with
              | none =>
                refine ⟨habM, ?_, habI, habS⟩
                intro day apt stop bit hbit
                exact getBit3_setBit3_mono hob (habO day apt stop bit hbit)
              | some ib =>
                refine ⟨habM, ?_, ?_, habS⟩
                · intro day apt stop bit hbit
                  exact getBit3_setBit3_mono hob (habO day apt stop bit hbit)
                · intro day apt stop bit hbit
                  exact getBit3_setBit3_mono hib (habI day apt stop bit hbit)

theorem getBit3_setBit3_self {store store' : List (List (List BitSet))}
    {d a s b : ℕ} (hw : setBit3 store d a s b = some store') :
    getBit3 store' d a s b = true := by
  obtain ⟨dayArr, aptArr, bs, h1, h2, h3, hs⟩ := setBit3_some_getElem hw
  have hdl : d < store.length := by
    by_contra hc
    rw [List.getElem?_eq_none (Nat.le_of_not_lt hc)] at h1
    exact Option.noConfusion h1
  have hal : a < dayArr.length := by
    by_contra hc
    rw [List.getElem?_eq_none (Nat.le_of_not_lt hc)] at h2
    exact Option.noConfusion h2
  have hsl : s < aptArr.length := by
    by_contra hc
    rw [List.getElem?_eq_none (Nat.le_of_not_lt hc)] at h3
    exact Option.noConfusion h3
  subst hs
  unfold getBit3 readBit3
  rw [List.getElem?_set_self hdl]
  simp only [Option.bind_eq_bind, Option.some_bind]
  rw [List.getElem?_set_self hal]
  simp only [Option.some_bind]
  rw [List.getElem?_set_self hsl]
  show (bs.set b).memb b = true
  exact BitSet.memb_set_self bs b

theorem applyConnections_mono (cs : List Connection)
    (st : ConnectionsStorage) :
    (∀ k v, mapGet st.airports k = some v →
        mapGet (applyConnections st cs).airports k = some v) ∧
    (∀ day apt stop bit, getBit3 st.outboundStorage day apt stop bit = true →
        getBit3 (applyConnections st cs).outboundStorage day apt stop bit
          = true) ∧
    (∀ day apt stop bit, getBit3 st.inboundStorage day apt stop bit = true →
        getBit3 (applyConnections st cs).inboundStorage day apt stop bit
          = true) := by
  induction cs generalizing st with
  | nil => exact ⟨fun k v h => h, fun d a s b h => h, fun d a s b h => h⟩
  | cons c cs ih =>
    have hstep := setConnection_mono st c
    have htail := ih ((st.setConnection c).1)
    refine ⟨?_, ?_, ?_⟩
    · intro k v h
      exact htail.1 k v (hstep.1 k v h)
    · intro d a s b h
      exact htail.2.1 d a s b (hstep.2.1 d a s b h)
    · intro d a s b h
      exact htail.2.2 d a s b (hstep.2.2.1 d a s b h)

/-- C4: for every connection on which setConnection succeeds, afterward
the outbound bit at [departure day + arriveNextDay][index of the
destination][stops][index of the origin] and the inbound bit at
[departure day][index of the origin][stops][index of the destination]
are both set, and they remain set (hence set iff each other) after any
further sequence of setConnection calls. -/
theorem C4_outbound_inbound_bits (st : ConnectionsStorage) (c : Connection)
    (cs : List Connection) (h : (st.setConnection c).2 = none) :
    ∃ oi di,
      mapGet ((st.setConnection c).1).airports c.originAirportCode =
        some oi ∧
      mapGet ((st.setConnection c).1).airports c.destinationAirportCode =
        some di ∧
      getBit3 ((st.setConnection c).1).outboundStorage
        (st.dayIndexOf c + c.arriveNextDay).toNat di c.stops.toNat oi
        = true ∧
      getBit3 ((st.setConnection c).1).inboundStorage
        (st.dayIndexOf c).toNat oi c.stops.toNat di = true ∧
      getBit3 (applyConnections (st.setConnection c).1 cs).outboundStorage
        (st.dayIndexOf c + c.arriveNextDay).toNat di c.stops.toNat oi
        = true ∧
      getBit3 (applyConnections (st.setConnection c).1 cs).inboundStorage
        (st.dayIndexOf c).toNat oi c.stops.toNat di = true ∧
      (getBit3 (applyConnections (st.setConnection c).1 cs).outboundStorage
          (st.dayIndexOf c + c.arriveNextDay).toNat di c.stops.toNat oi
          = true ↔
        getBit3 (applyConnections (st.setConnection c).1 cs).inboundStorage
          (st.dayIndexOf c).toNat oi c.stops.toNat di = true) := by
  obtain ⟨oi, di, ob, ib, hv, hd1, hd2, hoi, hdi, hob, hib, hst⟩ :=
    setConnection_ok h
  have hair : ((st.setConnection c).1).airports = (st.addBoth c).airports
    := by rw [hst]
  have houtS : ((st.setConnection c).1).outboundStorage = ob := by rw [hst]
  have hinS : ((st.setConnection c).1).inboundStorage = ib := by rw [hst]
  have hbOut : getBit3 ((st.setConnection c).1).outboundStorage
      (st.dayIndexOf c + c.arriveNextDay).toNat di c.stops.toNat oi
      = true := by
    rw [houtS]
    exact getBit3_setBit3_self hob
  have hbIn : getBit3 ((st.setConnection c).1).inboundStorage
      (st.dayIndexOf c).toNat oi c.stops.toNat di = true := by
    rw [hinS]
    exact getBit3_setBit3_self hib
  have hpers := applyConnections_mono cs ((st.setConnection c).1)
  have hbOut2 := hpers.2.1 _ _ _ _ hbOut
  have hbIn2 := hpers.2.2 _ _ _ _ hbIn
  exact ⟨oi, di, hair ▸ hoi, hair ▸ hdi, hbOut, hbIn, hbOut2, hbIn2,
    iff_of_true hbOut2 hbIn2⟩

theorem C4_witness :
    ((ConnectionsStorage.init (dms 0)).setConnection
      (fixConn "AAA" "CCC" 8 2)).2 = none ∧
    ∃ oi di,
      mapGet (((ConnectionsStorage.init (dms 0)).setConnection
        (fixConn "AAA" "CCC" 8 2)).1).airports
        (fixConn "AAA" "CCC" 8 2).originAirportCode = some oi ∧
      mapGet (((ConnectionsStorage.init (dms 0)).setConnection
        (fixConn "AAA" "CCC" 8 2)).1).airports
        (fixConn "AAA" "CCC" 8 2).destinationAirportCode = some di ∧
      getBit3 (((ConnectionsStorage.init (dms 0)).setConnection
        (fixConn "AAA" "CCC" 8 2)).1).outboundStorage
        ((ConnectionsStorage.init (dms 0)).dayIndexOf
            (fixConn "AAA" "CCC" 8 2) +
          (fixConn "AAA" "CCC" 8 2).arriveNextDay).toNat di
        (fixConn "AAA" "CCC" 8 2).stops.toNat oi = true ∧
      getBit3 (((ConnectionsStorage.init (dms 0)).setConnection
        (fixConn "AAA" "CCC" 8 2)).1).inboundStorage
        ((ConnectionsStorage.init (dms 0)).dayIndexOf
          (fixConn "AAA" "CCC" 8 2)).toNat oi
        (fixConn "AAA" "CCC" 8 2).stops.toNat di = true ∧
      getBit3 (applyConnections (((ConnectionsStorage.init
          (dms 0)).setConnection (fixConn "AAA" "CCC" 8 2)).1)
          (fixtureConnections.drop 1)).outboundStorage
        ((ConnectionsStorage.init (dms 0)).dayIndexOf
            (fixConn "AAA" "CCC" 8 2) +
          (fixConn "AAA" "CCC" 8 2).arriveNextDay).toNat di
        (fixConn "AAA" "CCC" 8 2).stops.toNat oi = true ∧
      getBit3 (applyConnections (((ConnectionsStorage.init
          (dms 0)).setConnection (fixConn "AAA" "CCC" 8 2)).1)
          (fixtureConnections.drop 1)).inboundStorage
        ((ConnectionsStorage.init (dms 0)).dayIndexOf
          (fixConn "AAA" "CCC" 8 2)).toNat oi
        (fixConn "AAA" "CCC" 8 2).stops.toNat di = true ∧
      (getBit3 (applyConnections (((ConnectionsStorage.init
          (dms 0)).setConnection (fixConn "AAA" "CCC" 8 2)).1)
          (fixtureConnections.drop 1)).outboundStorage
        ((ConnectionsStorage.init (dms 0)).dayIndexOf
            (fixConn "AAA" "CCC" 8 2) +
          (fixConn "AAA" "CCC" 8 2).arriveNextDay).toNat di
        (fixConn "AAA" "CCC" 8 2).stops.toNat oi = true ↔
      getBit3 (applyConnections (((ConnectionsStorage.init
          (dms 0)).setConnection (fixConn "AAA" "CCC" 8 2)).1)
          (fixtureConnections.drop 1)).inboundStorage
        ((ConnectionsStorage.init (dms 0)).dayIndexOf
          (fixConn "AAA" "CCC" 8 2)).toNat oi
        (fixConn "AAA" "CCC" 8 2).stops.toNat di = true) :=
  ⟨rfl, C4_outbound_inbound_bits (ConnectionsStorage.init (dms 0))
    (fixConn "AAA" "CCC" 8 2) (fixtureConnections.drop 1) rfl⟩

theorem shoulderStep_cases {store : List (List (List BitSet))}
    {aa : List String} {om : List (String × Int)} {ov : BitSet} {N : ℕ}
    {dayOf : ℕ → Int} {eg : Bool} {i j : ℕ} {acc acc' : ShoulderAcc}
    (h : shoulderStep store aa om ov N dayOf eg i j acc = some acc') :
    ((decide (acc.count < N) && eg) = false ∧ acc' = acc) ∨
    ((decide (acc.count < N) && eg) = true ∧
      ∃ day b0 b1 b2 sa,
        intIdx (dayOf j) = some day ∧
        readBit3 store day i 0 = some b0 ∧
        readBit3 store day i 1 = some b1 ∧
        readBit3 store day i 2 = some b2 ∧
        stopsCountOn store ((acc.available.not).and ov) day i = some sa ∧
        acc' = { available := acc.available.or ((b0.or b1).or b2)
                 count := acc.count +
                   (((b0.or b1).or b2).and
                     ((acc.available.not).and ov)).cardinality
                 totalStops := acc.totalStops + sa
                 shoulderNights := acc.shoulderNights +
                   sumArray ((((b0.or b1).or b2).and
                       ((acc.available.not).and ov)).toArray.map
                     (fun ind => (mapGetI om (aa.getD ind "")).getD 0)) *
                     (j : Int) }) := by
  unfold shoulderStep at h
  cases hg : (decide (acc.count < N) && eg) with
  | false =>
    rw [hg] at h
    simp at h
    exact Or.inl ⟨rfl, h.symm⟩
  | true =>
    rw [hg] at h
    simp only [if_true] at h
    refine Or.inr ⟨rfl, ?_⟩
    cases hd : intIdx (dayOf j) with
    | none => rw [hd] at h; simp at h
    | some day =>
      rw [hd] at h
      simp only [Option.bind_eq_bind, Option.some_bind] at h
      cases h0 : readBit3 store day i 0 with
      | none => rw [h0] at h; simp at h
      | some b0 =>
        rw [h0] at h
        simp only [Option.some_bind] at h
        cases h1 : readBit3 store day i 1 with
        | none => rw [h1] at h; simp at h
        | some b1 =>
          rw [h1] at h
          simp only [Option.some_bind] at h
          cases h2 : readBit3 store day i 2 with
          | none => rw [h2] at h; simp at h
          | some b2 =>
            rw [h2] at h
            simp only [Option.some_bind] at h
            cases hsa : stopsCountOn store ((acc.available.not).and ov)
                day i with
            | none => rw [hsa] at h; simp at h
            | some sa =>
              rw [hsa] at h
              simp only [Option.some_bind, Option.pure_def,
                Option.some_inj] at h
              exact ⟨day, b0, b1, b2, sa, rfl, h0, h1, h2, hsa, h.symm⟩

theorem shoulderStep_count_le {store : List (List (List BitSet))}
    {aa : List String} {om : List (String × Int)} {ov : BitSet} {N : ℕ}
    {dayOf : ℕ → Int} {eg : Bool} {i j : ℕ} {acc acc' : ShoulderAcc}
    (h : shoulderStep store aa om ov N dayOf eg i j acc = some acc') :
    acc.count ≤ acc'.count := by
  rcases shoulderStep_cases h with ⟨_, rfl⟩ | ⟨_, d, b0, b1, b2, sa, _, _,
    _, _, _, rfl⟩
  · exact Nat.le_refl _
  · exact Nat.le_add_right _ _

theorem shoulderLoop_succ (store : List (List (List BitSet)))
    (aa : List String) (om : List (String × Int)) (ov : BitSet) (N : ℕ)
    (dayOf : ℕ → Int) (eg : Bool) (i k : ℕ) (acc : ShoulderAcc) :
    shoulderLoop store aa om ov N dayOf eg i (k + 1) acc =
      (shoulderLoop store aa om ov N dayOf eg i k acc).bind
        (shoulderStep store aa om ov N dayOf eg i (k + 1)) := rfl

theorem shoulderLoop_count_le {store : List (List (List BitSet))}
    {aa : List String} {om : List (String × Int)} {ov : BitSet} {N : ℕ}
    {dayOf : ℕ → Int} {eg : Bool} {i : ℕ} {m : ℕ} {acc acc' : ShoulderAcc}
    (h : shoulderLoop store aa om ov N dayOf eg i m acc = some acc') :
    acc.count ≤ acc'.count := by
  induction m generalizing acc' with
  | zero =>
    unfold shoulderLoop at h
    exact (Option.some_inj.mp h) ▸ Nat.le_refl _
  | succ k ih =>
    rw [shoulderLoop_succ] at h
    cases hm : shoulderLoop store aa om ov N dayOf eg i k acc with
    | none => rw [hm] at h; simp at h
    | some mid =>
      rw [hm] at h
      simp only [Option.some_bind] at h
      exact Nat.le_trans (ih hm) (shoulderStep_count_le h)

theorem shoulderLoop_count_mono {store : List (List (List BitSet))}
    {aa : List String} {om : List (String × Int)} {ov : BitSet} {N : ℕ}
    {dayOf : ℕ → Int} {eg : Bool} {i : ℕ} {m m' : ℕ} (hmm : m ≤ m')
    {acc accF accF' : ShoulderAcc}
    (h : shoulderLoop store aa om ov N dayOf eg i m acc = some accF)
    (h' : shoulderLoop store aa om ov N dayOf eg i m' acc = some accF') :
    accF.count ≤ accF'.count := by
  induction m' generalizing accF' with
  | zero =>
    have : m = 0 := Nat.le_zero.mp hmm
    subst this
    rw [h] at h'
    exact (Option.some_inj.mp h') ▸ Nat.le_refl _
  | succ k ih =>
    rcases Nat.lt_or_ge m (k + 1) with hlt | hge
    · rw [shoulderLoop_succ] at h'
      cases hm : shoulderLoop store aa om ov N dayOf eg i k acc with
      | none => rw [hm] at h'; simp at h'
      | some mid =>
        rw [hm] at h'
        simp only [Option.some_bind] at h'
        exact Nat.le_trans (ih (Nat.lt_succ_iff.mp hlt) hm)
          (shoulderStep_count_le h')
    · have : m = k + 1 := Nat.le_antisymm hmm hge
      subst this
      rw [h] at h'
      exact (Option.some_inj.mp h') ▸ Nat.le_refl _

theorem computeCandidate_some {st : ConnectionsStorage}
    {om : List (String × Int)} {ov : BitSet} {N : ℕ} {oIdx iIdx : ℕ}
    {mo mi : Int} {i : ℕ} {dest : Destination}
    (h : st.computeCandidate om ov N oIdx iIdx mo mi i = some dest) :
    ∃ o0 o1 o2 ts0 accOut i0 i1 i2 ts1 accIn,
      readBit3 st.outboundStorage oIdx i 0 = some o0 ∧
      readBit3 st.outboundStorage oIdx i 1 = some o1 ∧
      readBit3 st.outboundStorage oIdx i 2 = some o2 ∧
      st.getOutboundStopsCount ov oIdx i = some ts0 ∧
      (if (((o0.or o1).or o2).and ov).cardinality < N ∧ mo > 0 then
          shoulderLoop st.outboundStorage st.airportsArray om ov N
            (fun j => (oIdx : Int) - (j : Int)) true i mo.toNat
            ⟨(o0.or o1).or o2, (((o0.or o1).or o2).and ov).cardinality,
              ts0, 0⟩
        else some ⟨(o0.or o1).or o2,
          (((o0.or o1).or o2).and ov).cardinality, ts0, 0⟩) = some accOut ∧
      readBit3 st.inboundStorage iIdx i 0 = some i0 ∧
      readBit3 st.inboundStorage iIdx i 1 = some i1 ∧
      readBit3 st.inboundStorage iIdx i 2 = some i2 ∧
      st.getInboundStopsCount ov iIdx i = some ts1 ∧
      (if (((i0.or i1).or i2).and ov).cardinality < N then
          shoulderLoop st.inboundStorage st.airportsArray om ov N
            (fun j => (iIdx : Int) + (j : Int)) (decide (mi > 0)) i
            mi.toNat
            ⟨(i0.or i1).or i2, (((i0.or i1).or i2).and ov).cardinality,
              ts1, 0⟩
        else some ⟨(i0.or i1).or i2,
          (((i0.or i1).or i2).and ov).cardinality, ts1, 0⟩) = some accIn ∧
      dest = { code := st.airportsArray.getD i ""
               availableOrigins := accOut.count + accIn.count
               totalStops := accOut.totalStops + accIn.totalStops
               unavailableOutboundOrigins :=
                 st.getUnavailableOrigins accOut.available ov i
               outboundShoulderNights := accOut.shoulderNights
               unavailableInboundOrigins :=
                 st.getUnavailableOrigins accIn.available ov i
               inboundShoulderNights := accIn.shoulderNights } := by
  unfold ConnectionsStorage.computeCandidate at h
  simp only [Option.bind_eq_bind, Option.pure_def] at h
  cases ho0 : readBit3 st.outboundStorage oIdx i 0 with
  | none =>
    rw [ho0] at h
    simp only [Option.none_bind] at h
    exact Option.noConfusion h
  | some o0 =>
  rw [ho0] at h
  simp only [Option.some_bind] at h
  cases ho1 : readBit3 st.outboundStorage oIdx i 1 with
  | none =>
    rw [ho1] at h
    simp only [Option.none_bind] at h
    exact Option.noConfusion h
  | some o1 =>
  rw [ho1] at h
  simp only [Option.some_bind] at h
  cases ho2 : readBit3 st.outboundStorage oIdx i 2 with
  | none =>
    rw [ho2] at h
    simp only [Option.none_bind] at h
    exact Option.noConfusion h
  | some o2 =>
  rw [ho2] at h
  simp only [Option.some_bind] at h
  cases hts0 : st.getOutboundStopsCount ov oIdx i with
  | none =>
    rw [hts0] at h
    simp only [Option.none_bind] at h
    exact Option.noConfusion h
  | some ts0 =>
  rw [hts0] at h
  simp only [Option.some_bind] at h
  cases hAO : (if (((o0.or o1).or o2).and ov).cardinality < N ∧ mo > 0 then
      shoulderLoop st.outboundStorage st.airportsArray om ov N
        (fun j => (oIdx : Int) - (j : Int)) true i mo.toNat
        ⟨(o0.or o1).or o2, (((o0.or o1).or o2).and ov).cardinality,
          ts0, 0⟩
    else some ⟨(o0.or o1).or o2,
      (((o0.or o1).or o2).and ov).cardinality, ts0, 0⟩) with
  | none =>
    rw [hAO] at h
    simp only [Option.none_bind] at h
    exact Option.noConfusion h
  | some accOut =>
  rw [hAO] at h
  simp only [Option.some_bind] at h
  cases hi0 : readBit3 st.inboundStorage iIdx i 0 with
  | none =>
    rw [hi0] at h
    simp only [Option.none_bind] at h
    exact Option.noConfusion h
  | some i0 =>
  rw [hi0] at h
  simp only [Option.some_bind] at h
  cases hi1 : readBit3 st.inboundStorage iIdx i 1 with
  | none =>
    rw [hi1] at h
    simp only [Option.none_bind] at h
    exact Option.noConfusion h
  | some i1 =>
  rw [hi1] at h
  simp only [Option.some_bind] at h
  cases hi2 : readBit3 st.inboundStorage iIdx i 2 with
  | none =>
    rw [hi2] at h
    simp only [Option.none_bind] at h
    exact Option.noConfusion h
  | some i2 =>
  rw [hi2] at h
  simp only [Option.some_bind] at h
  cases hts1 : st.getInboundStopsCount ov iIdx i with
  | none =>
    rw [hts1] at h
    simp only [Option.none_bind] at h
    exact Option.noConfusion h
  | some ts1 =>
  rw [hts1] at h
  simp only [Option.some_bind] at h
  cases hAI : (if (((i0.or i1).or i2).and ov).cardinality < N then
      shoulderLoop st.inboundStorage st.airportsArray om ov N
        (fun j => (iIdx : Int) + (j : Int)) (decide (mi > 0)) i mi.toNat
        ⟨(i0.or i1).or i2, (((i0.or i1).or i2).and ov).cardinality,
          ts1, 0⟩
    else some ⟨(i0.or i1).or i2,
      (((i0.or i1).or i2).and ov).cardinality, ts1, 0⟩) with
  | none =>
    rw [hAI] at h
    simp only [Option.none_bind] at h
    exact Option.noConfusion h
  | some accIn =>
  rw [hAI] at h
  simp only [Option.some_bind, Option.some_inj] at h
  exact ⟨o0, o1, o2, ts0, accOut, i0, i1, i2, ts1, accIn, rfl, rfl, rfl,
    rfl, hAO, rfl, rfl, rfl, rfl, hAI, h.symm⟩

theorem computeCandidate_count_mono {st : ConnectionsStorage}
    {om : List (String × Int)} {ov : BitSet} {N : ℕ} {oIdx iIdx : ℕ}
    {mo mi mo' mi' : Int} (hmo : mo ≤ mo') (hmi : mi ≤ mi') {i : ℕ}
    {d d' : Destination}
    (h : st.computeCandidate om ov N oIdx iIdx mo mi i = some d)
    (h' : st.computeCandidate om ov N oIdx iIdx mo' mi' i = some d') :
    d.availableOrigins ≤ d'.availableOrigins := by
  obtain ⟨o0, o1, o2, ts0, accOut, i0, i1, i2, ts1, accIn, ho0, ho1, ho2,
    hts0, hAO, hi0, hi1, hi2, hts1, hAI, hd⟩ := computeCandidate_some h
  obtain ⟨p0, p1, p2, us0, accOut', q0, q1, q2, us1, accIn', hp0, hp1, hp2,
    hus0, hAO', hq0, hq1, hq2, hus1, hAI', hd'⟩ := computeCandidate_some h'
  have e0 : p0 = o0 := Option.some_inj.mp (hp0.symm.trans ho0)
  have e1 : p1 = o1 := Option.some_inj.mp (hp1.symm.trans ho1)
  have e2 : p2 = o2 := Option.some_inj.mp (hp2.symm.trans ho2)
  have e3 : us0 = ts0 := Option.some_inj.mp (hus0.symm.trans hts0)
  have f0 : q0 = i0 := Option.some_inj.mp (hq0.symm.trans hi0)
  have f1 : q1 = i1 := Option.some_inj.mp (hq1.symm.trans hi1)
  have f2 : q2 = i2 := Option.some_inj.mp (hq2.symm.trans hi2)
  have f3 : us1 = ts1 := Option.some_inj.mp (hus1.symm.trans hts1)
  subst e0 e1 e2 e3 f0 f1 f2 f3
  have hOutLe : accOut.count ≤ accOut'.count := by
    by_cases hc : (((p0.or p1).or p2).and ov).cardinality < N
    · by_cases hmp0 : mo > 0
      · have hmp0' : mo' > 0 := lt_of_lt_of_le hmp0 hmo
        rw [if_pos ⟨hc, hmp0⟩] at hAO
        rw [if_pos ⟨hc, hmp0'⟩] at hAO'
        exact shoulderLoop_count_mono (Int.toNat_le_toNat hmo) hAO hAO'
      · rw [if_neg (fun hP => hmp0 hP.2)] at hAO
        have haccOut : accOut = ⟨(p0.or p1).or p2,
            (((p0.or p1).or p2).and ov).cardinality, us0, 0⟩ :=
          (Option.some_inj.mp hAO).symm
        by_cases hmp0' : mo' > 0
        · rw [if_pos ⟨hc, hmp0'⟩] at hAO'
          rw [haccOut]
          exact shoulderLoop_count_le hAO'
        · rw [if_neg (fun hP => hmp0' hP.2)] at hAO'
          rw [haccOut, (Option.some_inj.mp hAO').symm]
    · rw [if_neg (fun hP => hc hP.1)] at hAO
      rw [if_neg (fun hP => hc hP.1)] at hAO'
      rw [(Option.some_inj.mp hAO).symm, (Option.some_inj.mp hAO').symm]
  have hInLe : accIn.count ≤ accIn'.count := by
    by_cases hq : (((q0.or q1).or q2).and ov).cardinality < N
    · rw [if_pos hq] at hAI hAI'
      by_cases hmi0 : mi > 0
      · have hmi0' : mi' > 0 := lt_of_lt_of_le hmi0 hmi
        rw [show decide (mi > 0) = true from by simpa using hmi0] at hAI
        rw [show decide (mi' > 0) = true from by simpa using hmi0'] at hAI'
        exact shoulderLoop_count_mono (Int.toNat_le_toNat hmi) hAI hAI'
      · have hz : mi.toNat = 0 := Int.toNat_of_nonpos (Int.not_lt.mp hmi0)
        rw [hz] at hAI
        unfold shoulderLoop at hAI
        rw [(Option.some_inj.mp hAI).symm]
        exact shoulderLoop_count_le hAI'
    · rw [if_neg hq] at hAI hAI'
      rw [(Option.some_inj.mp hAI).symm, (Option.some_inj.mp hAI').symm]
  rw [hd, hd']
  exact Nat.add_le_add hOutLe hInLe

theorem mapM_option_some {α β : Type _} {f : α → Option β} :
    ∀ {xs : List α} {ys : List β}, xs.mapM f = some ys →
      ys.length = xs.length ∧
      ∀ (j : ℕ) (x : α), xs[j]? = some x →
        ∃ y, ys[j]? = some y ∧ f x = some y := by
  intro xs
  induction xs with
  | nil =>
    intro ys h
    rw [← List.mapM'_eq_mapM] at h
    simp only [List.mapM'] at h
    refine ⟨by simp [← Option.some_inj.mp h], ?_⟩
    intro j x hj
    simp at hj
  | cons x xs ih =>
    intro ys h
    rw [← List.mapM'_eq_mapM] at h
    simp only [List.mapM'] at h
    cases hx : f x with
    | none => rw [hx] at h; simp at h
    | some y =>
      rw [hx] at h
      simp only [Option.bind_eq_bind, Option.some_bind] at h
      cases hxs : xs.mapM' f with
      | none => rw [hxs] at h; simp at h
      | some ys' =>
        rw [hxs] at h
        simp only [Option.some_bind, Option.map_some', Option.some_inj]
          at h
        rw [List.mapM'_eq_mapM] at hxs
        obtain ⟨hlen, hidx⟩ := ih hxs
        have h2 : y :: ys' = ys := Option.some_inj.mp h
        subst h2
        refine ⟨by simp [hlen], ?_⟩
        intro j x0 hj
        cases j with
        | zero =>
          simp only [List.getElem?_cons_zero, Option.some_inj] at hj
          subst hj
          exact ⟨y, List.getElem?_cons_zero, hx⟩
        | succ k =>
          simp only [List.getElem?_cons_succ] at hj ⊢
          exact hidx k x0 hj

theorem rankCandidates_ok {st : ConnectionsStorage}
    {origins : List OriginInput} {ms me mo mi : Int}
    {l : List Destination}
    (h : st.rankCandidates origins ms me mo mi = Except.ok l) :
    l.length = st.airports.length ∧
    (st.convertDateToArrayIndex ms).2 = none ∧
    (st.convertDateToArrayIndex me).2 = none ∧
    ∀ j, j < st.airports.length →
      ∃ dj, l[j]? = some dj ∧
        st.computeCandidate (buildOriginsMap origins)
          (st.prepareOriginVector ((buildOriginsMap origins).map Prod.fst))
          origins.length (st.convertDateToArrayIndex ms).1.toNat
          (st.convertDateToArrayIndex me).1.toNat mo mi j = some dj := by
  unfold ConnectionsStorage.rankCandidates at h
  dsimp only at h
  cases hc1 : (st.convertDateToArrayIndex ms).2 with
  | some e => rw [hc1] at h; exact Except.noConfusion h
  | none =>
    rw [hc1] at h
    cases hc2 : (st.convertDateToArrayIndex me).2 with
    | some e => rw [hc2] at h; exact Except.noConfusion h
    | none =>
      rw [hc2] at h
      cases hm : (List.range st.airports.length).mapM
          (fun i => st.computeCandidate (buildOriginsMap origins)
            (st.prepareOriginVector
              ((buildOriginsMap origins).map Prod.fst))
            origins.length (st.convertDateToArrayIndex ms).1.toNat
            (st.convertDateToArrayIndex me).1.toNat mo mi i) with
      | none => rw [hm] at h; exact Except.noConfusion h
      | some l0 =>
        rw [hm] at h
        have hl : l0 = l := by
          have := h
          injection this
        subst hl
        obtain ⟨hlen, hidx⟩ := mapM_option_some hm
        refine ⟨by simpa using hlen, rfl, rfl, ?_⟩
        intro j hj
        obtain ⟨y, hy, hfy⟩ := hidx j j (List.getElem?_range hj)
        exact ⟨y, hy, hfy⟩

/-- C5: monotone coverage.  For a fixed store, origins list, meeting
date pair and candidate, increasing the outbound or inbound shoulder
tolerance (with both calls succeeding) never decreases the candidate's
availableOrigins value.  The property is stated on rankCandidates, the
candidate loop of getDestinationsForDatePair, where candidate i's record
sits at position i (the subsequent stable sort and truncation only
reorder or drop records, never change a candidate's value). -/
theorem C5_monotone_coverage (st : ConnectionsStorage)
    (origins : List OriginInput) (ms me : Int) (mo mi mo' mi' : Int)
    (hmo : mo ≤ mo') (hmi : mi ≤ mi') (l l' : List Destination)
    (h : st.rankCandidates origins ms me mo mi = Except.ok l)
    (h' : st.rankCandidates origins ms me mo' mi' = Except.ok l')
    (i : ℕ) (hi : i < l.length) :
    l'.length = l.length ∧
    (l.getD i ⟨"", 0, 0, [], 0, [], 0⟩).availableOrigins ≤
      (l'.getD i ⟨"", 0, 0, [], 0, [], 0⟩).availableOrigins := by
  obtain ⟨hlen, _, _, hidx⟩ := rankCandidates_ok h
  obtain ⟨hlen', _, _, hidx'⟩ := rankCandidates_ok h'
  have hia : i < st.airports.length := hlen ▸ hi
  obtain ⟨dj, hdj, hcc⟩ := hidx i hia
  obtain ⟨dj', hdj', hcc'⟩ := hidx' i hia
  refine ⟨hlen'.trans hlen.symm, ?_⟩
  rw [List.getD_eq_getElem?_getD, List.getD_eq_getElem?_getD, hdj, hdj']
  exact computeCandidate_count_mono hmo hmi hcc hcc'

theorem C5_witness :
    (0 : Int) ≤ 1 ∧ (0 : Int) ≤ 1 ∧
    (fixtureStore.rankCandidates fixtureOrigins (dms 9) (dms 14) 0 0 =
      Except.ok
        [⟨"AAA", 0, 0, ["CCC", "BBB"], 0, ["CCC", "BBB"], 0⟩,
         ⟨"CCC", 2, 2, ["AAA"], 0, ["BBB"], 0⟩,
         ⟨"DDD", 2, 0, ["CCC", "BBB"], 0, ["CCC", "BBB"], 0⟩,
         ⟨"BBB", 0, 0, ["AAA", "CCC"], 0, ["AAA", "CCC"], 0⟩]) ∧
    (fixtureStore.rankCandidates fixtureOrigins (dms 9) (dms 14) 1 1 =
      Except.ok
        [⟨"AAA", 0, 0, ["CCC", "BBB"], 0, ["CCC", "BBB"], 0⟩,
         ⟨"CCC", 4, 4, [], 2, [], 1⟩,
         ⟨"DDD", 2, 0, ["CCC", "BBB"], 0, ["CCC", "BBB"], 0⟩,
         ⟨"BBB", 0, 0, ["AAA", "CCC"], 0, ["AAA", "CCC"], 0⟩]) ∧
    (1 < 4) ∧
    (([⟨"AAA", 0, 0, ["CCC", "BBB"], 0, ["CCC", "BBB"], 0⟩,
       ⟨"CCC", 2, 2, ["AAA"], 0, ["BBB"], 0⟩,
       ⟨"DDD", 2, 0, ["CCC", "BBB"], 0, ["CCC", "BBB"], 0⟩,
       ⟨"BBB", 0, 0, ["AAA", "CCC"], 0, ["AAA", "CCC"], 0⟩] :
        List Destination).length =
      ([⟨"AAA", 0, 0, ["CCC", "BBB"], 0, ["CCC", "BBB"], 0⟩,
        ⟨"CCC", 4, 4, [], 2, [], 1⟩,
        ⟨"DDD", 2, 0, ["CCC", "BBB"], 0, ["CCC", "BBB"], 0⟩,
        ⟨"BBB", 0, 0, ["AAA", "CCC"], 0, ["AAA", "CCC"], 0⟩] :
        List Destination).length ∧
      (([⟨"AAA", 0, 0, ["CCC", "BBB"], 0, ["CCC", "BBB"], 0⟩,
         ⟨"CCC", 2, 2, ["AAA"], 0, ["BBB"], 0⟩,
         ⟨"DDD", 2, 0, ["CCC", "BBB"], 0, ["CCC", "BBB"], 0⟩,
         ⟨"BBB", 0, 0, ["AAA", "CCC"], 0, ["AAA", "CCC"], 0⟩] :
          List Destination).getD 1
          ⟨"", 0, 0, [], 0, [], 0⟩).availableOrigins ≤
        (([⟨"AAA", 0, 0, ["CCC", "BBB"], 0, ["CCC", "BBB"], 0⟩,
           ⟨"CCC", 4, 4, [], 2, [], 1⟩,
           ⟨"DDD", 2, 0, ["CCC", "BBB"], 0, ["CCC", "BBB"], 0⟩,
           ⟨"BBB", 0, 0, ["AAA", "CCC"], 0, ["AAA", "CCC"], 0⟩] :
            List Destination).getD 1
            ⟨"", 0, 0, [], 0, [], 0⟩).availableOrigins) :=
  ⟨by decide, by decide, by rfl, by rfl, by decide,
    C5_monotone_coverage fixtureStore fixtureOrigins (dms 9) (dms 14)
      0 0 1 1 (by decide) (by decide)
      [⟨"AAA", 0, 0, ["CCC", "BBB"], 0, ["CCC", "BBB"], 0⟩,
       ⟨"CCC", 2, 2, ["AAA"], 0, ["BBB"], 0⟩,
       ⟨"DDD", 2, 0, ["CCC", "BBB"], 0, ["CCC", "BBB"], 0⟩,
       ⟨"BBB", 0, 0, ["AAA", "CCC"], 0, ["AAA", "CCC"], 0⟩]
      [⟨"AAA", 0, 0, ["CCC", "BBB"], 0, ["CCC", "BBB"], 0⟩,
       ⟨"CCC", 4, 4, [], 2, [], 1⟩,
       ⟨"DDD", 2, 0, ["CCC", "BBB"], 0, ["CCC", "BBB"], 0⟩,
       ⟨"BBB", 0, 0, ["AAA", "CCC"], 0, ["AAA", "CCC"], 0⟩]
      (by rfl) (by rfl) 1 (by decide)⟩

theorem getDest_ok {st : ConnectionsStorage} {origins : List OriginInput}
    {ms me mo mi tk : Int} {res : List Destination}
    (h : st.getDestinationsForDatePair origins ms me mo mi tk =
      Except.ok res) :
    ∃ base, st.rankCandidates origins ms me mo mi = Except.ok base ∧
      res = (if tk > 0 then (base.insertionSort destR).take tk.toNat
        else base.insertionSort destR) := by
  unfold ConnectionsStorage.getDestinationsForDatePair at h
  cases hr : st.rankCandidates origins ms me mo mi with
  | error e => rw [hr] at h; exact Except.noConfusion h
  | ok base =>
    rw [hr] at h
    dsimp only at h
    refine ⟨base, rfl, ?_⟩
    by_cases htk : tk > 0
    · rw [if_pos htk] at h ⊢
      exact (Except.ok.inj h).symm
    · rw [if_neg htk] at h ⊢
      exact (Except.ok.inj h).symm

theorem range_map_getD {α : Type _} (l : List α) (d : α) :
    (List.range l.length).map (fun j => l.getD j d) = l := by
  apply List.ext_getElem?
  intro j
  rw [List.getElem?_map]
  by_cases hj : j < l.length
  · rw [List.getElem?_range hj, Option.map_some']
    rw [List.getD_eq_getElem?_getD]
    cases hv : l[j]? with
    | none =>
      rw [List.getElem?_eq_none_iff] at hv
      exact absurd hv (Nat.not_le_of_lt hj)
    | some v => simp
  · rw [List.getElem?_eq_none (by simpa using Nat.le_of_not_lt hj)]
    rw [List.getElem?_eq_none (Nat.le_of_not_lt hj)]
    rfl

theorem rankCandidates_codes {st : ConnectionsStorage}
    {origins : List OriginInput} {ms me mo mi : Int}
    {l : List Destination}
    (h : st.rankCandidates origins ms me mo mi = Except.ok l)
    (hreg : st.airports.length = st.airportsArray.length) :
    l.map (fun d => d.code) = st.airportsArray := by
  obtain ⟨hlen, _, _, hidx⟩ := rankCandidates_ok h
  have hstep : l.map (fun d => d.code) =
      (List.range st.airportsArray.length).map
        (fun j => st.airportsArray.getD j "") := by
    apply List.ext_getElem?
    intro j
    rw [List.getElem?_map, List.getElem?_map]
    by_cases hj : j < st.airports.length
    · obtain ⟨dj, hdj, hcc⟩ := hidx j hj
      obtain ⟨o0, o1, o2, ts0, accOut, i0, i1, i2, ts1, accIn, _, _, _, _,
        _, _, _, _, _, _, hd⟩ := computeCandidate_some hcc
      rw [hdj, List.getElem?_range (hreg ▸ hj), Option.map_some',
        Option.map_some', hd]
    · have hj2 : l.length ≤ j := by
        rw [hlen]; exact Nat.le_of_not_lt hj
      rw [List.getElem?_eq_none hj2,
        List.getElem?_eq_none (n := j) (by
          simpa using (hreg ▸ Nat.le_of_not_lt hj))]
      rfl
  rw [hstep, range_map_getD]

/-- C7: getDestinationsForDatePair emits one Destination record per
registered airport (the codes of the untruncated result are a
permutation of the airport registry, including airports in the origin
set), sorted descending by availableOrigins; a positive take value
truncates the sorted list to its first take records, while take = 0 (or
negative) returns all of them. -/
theorem C7_emission_sort_truncation (st : ConnectionsStorage)
    (origins : List OriginInput) (ms me mo mi tk : Int)
    (res full : List Destination)
    (hreg : st.airports.length = st.airportsArray.length)
    (hres : st.getDestinationsForDatePair origins ms me mo mi tk =
      Except.ok res)
    (hfull : st.getDestinationsForDatePair origins ms me mo mi 0 =
      Except.ok full) :
    (full.map (fun d => d.code)).Perm st.airportsArray ∧
    full.length = st.airports.length ∧
    List.Pairwise destR full ∧
    List.Pairwise destR res ∧
    (tk ≤ 0 → res = full) ∧
    (0 < tk → res = full.take tk.toNat ∧
      res.length = min tk.toNat st.airports.length) := by
  obtain ⟨base, hrank, hfullEq⟩ := getDest_ok hfull
  obtain ⟨base', hrank', hresEq⟩ := getDest_ok hres
  have hbb : base' = base := by
    rw [hrank] at hrank'
    exact (Except.ok.inj hrank').symm
  rw [hbb] at hresEq
  rw [if_neg (by decide)] at hfullEq
  obtain ⟨hlen, _, _, _⟩ := rankCandidates_ok hrank
  have hperm : (base.insertionSort destR).Perm base :=
    List.perm_insertionSort destR base
  have hsorted : List.Pairwise destR (base.insertionSort destR) :=
    List.sorted_insertionSort destR base
  have hcodes : base.map (fun d => d.code) = st.airportsArray :=
    rankCandidates_codes hrank hreg
  have hfulllen : full.length = st.airports.length := by
    rw [hfullEq, hperm.length_eq, hlen]
  refine ⟨?_, hfulllen, hfullEq ▸ hsorted, ?_, ?_, ?_⟩
  · rw [hfullEq, ← hcodes]
    exact hperm.map (fun d => d.code)
  · rw [hresEq]
    by_cases htk : tk > 0
    · rw [if_pos htk]
      exact List.Pairwise.sublist (List.take_sublist _ _) hsorted
    · rw [if_neg htk]
      exact hsorted
  · intro htk
    rw [hresEq, if_neg (Int.not_lt.mpr htk), hfullEq]
  · intro htk
    constructor
    · rw [hresEq, if_pos htk, hfullEq]
    · rw [hresEq, if_pos htk, List.length_take, hperm.length_eq, hlen]

theorem C7_witness :
    (fixtureStore.airports.length = fixtureStore.airportsArray.length) ∧
    (fixtureStore.getDestinationsForDatePair fixtureOrigins
        (dms 9) (dms 14) 1 1 2 =
      Except.ok
        [⟨"CCC", 4, 4, [], 2, [], 1⟩,
         ⟨"DDD", 2, 0, ["CCC", "BBB"], 0, ["CCC", "BBB"], 0⟩]) ∧
    (fixtureStore.getDestinationsForDatePair fixtureOrigins
        (dms 9) (dms 14) 1 1 0 =
      Except.ok
        [⟨"CCC", 4, 4, [], 2, [], 1⟩,
         ⟨"DDD", 2, 0, ["CCC", "BBB"], 0, ["CCC", "BBB"], 0⟩,
         ⟨"AAA", 0, 0, ["CCC", "BBB"], 0, ["CCC", "BBB"], 0⟩,
         ⟨"BBB", 0, 0, ["AAA", "CCC"], 0, ["AAA", "CCC"], 0⟩]) ∧
    ((([⟨"CCC", 4, 4, [], 2, [], 1⟩,
        ⟨"DDD", 2, 0, ["CCC", "BBB"], 0, ["CCC", "BBB"], 0⟩,
        ⟨"AAA", 0, 0, ["CCC", "BBB"], 0, ["CCC", "BBB"], 0⟩,
        ⟨"BBB", 0, 0, ["AAA", "CCC"], 0, ["AAA", "CCC"], 0⟩] :
         List Destination).map (fun d => d.code)).Perm
        fixtureStore.airportsArray ∧
      ([⟨"CCC", 4, 4, [], 2, [], 1⟩,
        ⟨"DDD", 2, 0, ["CCC", "BBB"], 0, ["CCC", "BBB"], 0⟩,
        ⟨"AAA", 0, 0, ["CCC", "BBB"], 0, ["CCC", "BBB"], 0⟩,
        ⟨"BBB", 0, 0, ["AAA", "CCC"], 0, ["AAA", "CCC"], 0⟩] :
         List Destination).length = fixtureStore.airports.length ∧
      List.Pairwise destR
        ([⟨"CCC", 4, 4, [], 2, [], 1⟩,
          ⟨"DDD", 2, 0, ["CCC", "BBB"], 0, ["CCC", "BBB"], 0⟩,
          ⟨"AAA", 0, 0, ["CCC", "BBB"], 0, ["CCC", "BBB"], 0⟩,
          ⟨"BBB", 0, 0, ["AAA", "CCC"], 0, ["AAA", "CCC"], 0⟩] :
          List Destination) ∧
      List.Pairwise destR
        ([⟨"CCC", 4, 4, [], 2, [], 1⟩,
          ⟨"DDD", 2, 0, ["CCC", "BBB"], 0, ["CCC", "BBB"], 0⟩] :
          List Destination) ∧
      ((2 : Int) ≤ 0 →
        ([⟨"CCC", 4, 4, [], 2, [], 1⟩,
          ⟨"DDD", 2, 0, ["CCC", "BBB"], 0, ["CCC", "BBB"], 0⟩] :
          List Destination) =
        [⟨"CCC", 4, 4, [], 2, [], 1⟩,
         ⟨"DDD", 2, 0, ["CCC", "BBB"], 0, ["CCC", "BBB"], 0⟩,
         ⟨"AAA", 0, 0, ["CCC", "BBB"], 0, ["CCC", "BBB"], 0⟩,
         ⟨"BBB", 0, 0, ["AAA", "CCC"], 0, ["AAA", "CCC"], 0⟩]) ∧
      ((0 : Int) < 2 →
        ([⟨"CCC", 4, 4, [], 2, [], 1⟩,
          ⟨"DDD", 2, 0, ["CCC", "BBB"], 0, ["CCC", "BBB"], 0⟩] :
          List Destination) =
          ([⟨"CCC", 4, 4, [], 2, [], 1⟩,
            ⟨"DDD", 2, 0, ["CCC", "BBB"], 0, ["CCC", "BBB"], 0⟩,
            ⟨"AAA", 0, 0, ["CCC", "BBB"], 0, ["CCC", "BBB"], 0⟩,
            ⟨"BBB", 0, 0, ["AAA", "CCC"], 0, ["AAA", "CCC"], 0⟩] :
            List Destination).take (2 : Int).toNat ∧
        ([⟨"CCC", 4, 4, [], 2, [], 1⟩,
          ⟨"DDD", 2, 0, ["CCC", "BBB"], 0, ["CCC", "BBB"], 0⟩] :
          List Destination).length =
          min (2 : Int).toNat fixtureStore.airports.length)) :=
  ⟨rfl, by rfl, by rfl,
    C7_emission_sort_truncation fixtureStore fixtureOrigins
      (dms 9) (dms 14) 1 1 2
      [⟨"CCC", 4, 4, [], 2, [], 1⟩,
       ⟨"DDD", 2, 0, ["CCC", "BBB"], 0, ["CCC", "BBB"], 0⟩]
      [⟨"CCC", 4, 4, [], 2, [], 1⟩,
       ⟨"DDD", 2, 0, ["CCC", "BBB"], 0, ["CCC", "BBB"], 0⟩,
       ⟨"AAA", 0, 0, ["CCC", "BBB"], 0, ["CCC", "BBB"], 0⟩,
       ⟨"BBB", 0, 0, ["AAA", "CCC"], 0, ["AAA", "CCC"], 0⟩]
      rfl (by rfl) (by rfl)⟩

theorem BitSet.or_fin {a b : BitSet} (ha : a.inf = false)
    (hb : b.inf = false) : a.or b = ⟨a.s ∪ b.s, false⟩ := by
  unfold BitSet.or
  rw [ha, hb]

theorem BitSet.and_fin {a b : BitSet} (ha : a.inf = false)
    (hb : b.inf = false) : a.and b = ⟨a.s ∩ b.s, false⟩ := by
  unfold BitSet.and
  rw [ha, hb]

theorem BitSet.notand_fin {a b : BitSet} (ha : a.inf = false)
    (hb : b.inf = false) : (a.not).and b = ⟨b.s \ a.s, false⟩ := by
  unfold BitSet.not BitSet.and
  rw [ha, hb]
  rfl

theorem BitSet.cardinality_fin (s : Finset ℕ) :
    (BitSet.mk s false).cardinality = s.card := rfl

theorem BitSet.memb_fin (s : Finset ℕ) (n : ℕ) :
    (BitSet.mk s false).memb n = decide (n ∈ s) := rfl

theorem sumArray_eq_sum (l : List Int) : sumArray l = l.sum := by
  rw [List.sum_eq_foldl]
  rfl

theorem toArray_fin_perm (s : Finset ℕ) :
    (BitSet.mk s false).toArray.Perm s.toList := by
  apply List.perm_of_nodup_nodup_toFinset_eq
  · unfold BitSet.toArray
    simp only [Bool.false_eq_true, if_false]
    exact List.Nodup.filter _ (List.nodup_range _)
  · exact Finset.nodup_toList s
  · unfold BitSet.toArray
    simp only [Bool.false_eq_true, if_false]
    ext n
    simp only [List.mem_toFinset, List.mem_filter, List.mem_range,
      decide_eq_true_eq, Finset.mem_toList]
    constructor
    · exact fun h => h.2
    · intro hn
      exact ⟨Nat.lt_succ_of_le (Finset.le_sup (f := id) hn), hn⟩

theorem sumArray_toArray_map (s : Finset ℕ) (f : ℕ → Int) :
    sumArray ((BitSet.mk s false).toArray.map f) = ∑ n in s, f n := by
  rw [sumArray_eq_sum]
  rw [List.Perm.sum_eq (List.Perm.map f (toArray_fin_perm s))]
  exact Finset.sum_to_list s f

theorem allFiniteStore_readBit3 {store : List (List (List BitSet))}
    (hfin : allFiniteStore store = true) {day apt stop : ℕ} {b : BitSet}
    (h : readBit3 store day apt stop = some b) : b.inf = false := by
  unfold allFiniteStore at hfin
  rw [List.all_eq_true] at hfin
  unfold readBit3 at h
  cases h1 : store[day]? with
  | none => rw [h1] at h; simp at h
  | some dayArr =>
    rw [h1] at h
    simp only [Option.bind_eq_bind, Option.some_bind] at h
    have hd := hfin dayArr (List.getElem?_mem h1)
    rw [List.all_eq_true] at hd
    cases h2 : dayArr[apt]? with
    | none => rw [h2] at h; simp at h
    | some aptArr =>
      rw [h2] at h
      have ha := hd aptArr (List.getElem?_mem h2)
      rw [List.all_eq_true] at ha
      have hb := ha b (List.getElem?_mem h)
      simpa using hb

theorem intIdx_some {v : Int} {day : ℕ} (h : intIdx v = some day) :
    ¬(v < 0) ∧ day = v.toNat := by
  unfold intIdx at h
  split at h
  · exact Option.noConfusion h
  · next hv => exact ⟨hv, (Option.some_inj.mp h).symm⟩

theorem BitSet.memb_eq_decide {b : BitSet} (hb : b.inf = false) (n : ℕ) :
    b.memb n = decide (n ∈ b.s) := by
  unfold BitSet.memb
  rw [hb]
  rfl

theorem range'_one_concat (k : ℕ) :
    List.range' 1 (k + 1) = List.range' 1 k ++ [k + 1] := by
  rw [List.range'_concat]
  simp [Nat.add_comm]

theorem fsd_zero_max (store : List (List (List BitSet))) (dayOf : ℕ → Int)
    (i n : ℕ) : firstServedDistance store dayOf i 0 n = 0 := by
  unfold firstServedDistance
  split
  · rfl
  · rfl

theorem fsd_anchor {store : List (List (List BitSet))} {dayOf : ℕ → Int}
    {i m n : ℕ} (h : servedAt store dayOf i 0 n = true) :
    firstServedDistance store dayOf i m n = 0 := by
  unfold firstServedDistance
  rw [if_pos h]

theorem fsd_unserved {store : List (List (List BitSet))} {dayOf : ℕ → Int}
    {i m n : ℕ} (h : ∀ j, j ≤ m → servedAt store dayOf i j n = false) :
    firstServedDistance store dayOf i m n = 0 := by
  unfold firstServedDistance
  rw [if_neg (by rw [h 0 (Nat.zero_le m)]; exact Bool.false_ne_true)]
  rw [List.find?_eq_none.mpr]
  · rfl
  · intro x hx
    rw [List.mem_range'_1] at hx
    obtain ⟨hx1, hx2⟩ := hx
    rw [h x (by omega)]
    exact Bool.false_ne_true

theorem fsd_stable {store : List (List (List BitSet))} {dayOf : ℕ → Int}
    {i k n : ℕ} (hs : ∃ j, j ≤ k ∧ servedAt store dayOf i j n = true) :
    firstServedDistance store dayOf i (k + 1) n =
      firstServedDistance store dayOf i k n := by
  unfold firstServedDistance
  by_cases h0 : servedAt store dayOf i 0 n = true
  · rw [if_pos h0, if_pos h0]
  · rw [if_neg h0, if_neg h0]
    obtain ⟨j, hj, hsv⟩ := hs
    have hj1 : 1 ≤ j := by
      cases Nat.eq_zero_or_pos j with
      | inl hz => exact absurd (hz ▸ hsv) h0
      | inr hp => exact hp
    cases hfind : (List.range' 1 k).find?
        (fun j => servedAt store dayOf i j n) with
    | none =>
      exfalso
      rw [List.find?_eq_none] at hfind
      exact hfind j (List.mem_range'_1.mpr ⟨hj1, by omega⟩) hsv
    | some j0 =>
      rw [range'_one_concat, List.find?_append, hfind]
      rfl

theorem fsd_new {store : List (List (List BitSet))} {dayOf : ℕ → Int}
    {i k n : ℕ}
    (hnot : ∀ j, j ≤ k → servedAt store dayOf i j n = false)
    (hnew : servedAt store dayOf i (k + 1) n = true) :
    firstServedDistance store dayOf i (k + 1) n = k + 1 := by
  unfold firstServedDistance
  rw [if_neg (by rw [hnot 0 (Nat.zero_le k)]; exact Bool.false_ne_true)]
  rw [range'_one_concat, List.find?_append]
  rw [List.find?_eq_none.mpr (fun x hx => by
    rw [List.mem_range'_1] at hx
    obtain ⟨hx1, hx2⟩ := hx
    rw [hnot x (by omega)]
    exact Bool.false_ne_true)]
  rw [Option.none_or]
  unfold List.find?
  rw [hnew]
  rfl

theorem servedAt_of_reads {store : List (List (List BitSet))}
    {dayOf : ℕ → Int} {i j day : ℕ} {b0 b1 b2 : BitSet}
    (hd : intIdx (dayOf j) = some day)
    (h0 : readBit3 store day i 0 = some b0)
    (h1 : readBit3 store day i 1 = some b1)
    (h2 : readBit3 store day i 2 = some b2)
    (hf0 : b0.inf = false) (hf1 : b1.inf = false) (hf2 : b2.inf = false)
    (n : ℕ) :
    servedAt store dayOf i j n =
      (decide (n ∈ b0.s) || decide (n ∈ b1.s) || decide (n ∈ b2.s)) := by
  obtain ⟨hneg, hday⟩ := intIdx_some hd
  unfold servedAt tierMem
  rw [if_neg hneg, if_neg hneg, if_neg hneg, ← hday, h0, h1, h2]
  show (b0.memb n || b1.memb n || b2.memb n) = _
  rw [BitSet.memb_eq_decide hf0, BitSet.memb_eq_decide hf1,
    BitSet.memb_eq_decide hf2]

theorem mem_layer_iff_servedAt {store : List (List (List BitSet))}
    {dayOf : ℕ → Int} {i j day : ℕ} {b0 b1 b2 : BitSet}
    (hd : intIdx (dayOf j) = some day)
    (h0 : readBit3 store day i 0 = some b0)
    (h1 : readBit3 store day i 1 = some b1)
    (h2 : readBit3 store day i 2 = some b2)
    (hf0 : b0.inf = false) (hf1 : b1.inf = false) (hf2 : b2.inf = false)
    (n : ℕ) :
    n ∈ ((b0.or b1).or b2).s ↔ servedAt store dayOf i j n = true := by
  rw [servedAt_of_reads hd h0 h1 h2 hf0 hf1 hf2 n]
  rw [BitSet.or_fin (by rw [BitSet.or_fin hf0 hf1]) hf2,
    BitSet.or_fin hf0 hf1]
  simp [Finset.mem_union, or_assoc]

theorem shoulderLoop_invariant
    (store : List (List (List BitSet))) (aa : List String)
    (om : List (String × Int)) (ov : BitSet) (N : ℕ) (dayOf : ℕ → Int)
    (i : ℕ)
    (hfin : allFiniteStore store = true) (hovf : ov.inf = false)
    (hcard : ov.s.card ≤ N)
    (acc0 : ShoulderAcc)
    (h0fin : acc0.available.inf = false)
    (h0mem : ∀ n, n ∈ ov.s →
      ((n ∈ acc0.available.s) ↔ servedAt store dayOf i 0 n = true))
    (h0count : acc0.count = (acc0.available.and ov).cardinality) :
    ∀ (m : ℕ) (accF : ShoulderAcc),
      shoulderLoop store aa om ov N dayOf true i m acc0 = some accF →
      accF.available.inf = false ∧
      (∀ n, n ∈ ov.s → ((n ∈ accF.available.s) ↔
        ∃ j, j ≤ m ∧ servedAt store dayOf i j n = true)) ∧
      accF.count = (accF.available.and ov).cardinality ∧
      accF.shoulderNights = acc0.shoulderNights +
        ∑ n in ov.s, originWeight aa om n *
          (firstServedDistance store dayOf i m n : Int) := by
  intro m
  induction m with
  | zero =>
    intro accF hloop
    unfold shoulderLoop at hloop
    have heq : acc0 = accF := Option.some_inj.mp hloop
    subst heq
    refine ⟨h0fin, ?_, h0count, ?_⟩
    · intro n hn
      rw [h0mem n hn]
      constructor
      · intro h
        exact ⟨0, Nat.le_refl 0, h⟩
      · rintro ⟨j, hj, hs⟩
        rw [Nat.le_zero.mp hj] at hs
        exact hs
    · rw [Finset.sum_eq_zero (fun n _ => by
        rw [fsd_zero_max store dayOf i n]
        exact mul_zero _), add_zero]
  | succ k ih =>
    intro accF hloop
    rw [shoulderLoop_succ] at hloop
    cases hmid : shoulderLoop store aa om ov N dayOf true i k acc0 with
    | none =>
      rw [hmid] at hloop
      exact Option.noConfusion hloop
    | some mid =>
    rw [hmid] at hloop
    simp only [Option.some_bind] at hloop
    obtain ⟨hfinM, hmemM, hcountM, hnightsM⟩ := ih mid hmid
    rcases shoulderStep_cases hloop with ⟨hg, rfl⟩ |
      ⟨hg, day, b0, b1, b2, sa, hd, h0, h1, h2, hsa, hrec⟩
    · -- guard false: the count has reached N, the step is skipped
      have hge : N ≤ accF.count := by
        rcases Nat.lt_or_ge accF.count N with hlt | hge2
        · rw [decide_eq_true hlt] at hg
          exact absurd hg (by simp)
        · exact hge2
      have hsub : ov.s ⊆ accF.available.s := by
        have hA : accF.available.and ov =
            ⟨accF.available.s ∩ ov.s, false⟩ := BitSet.and_fin hfinM hovf
        rw [hA, BitSet.cardinality_fin] at hcountM
        have hle : ov.s.card ≤ (accF.available.s ∩ ov.s).card := by
          rw [← hcountM]
          exact Nat.le_trans hcard hge
        have heq := Finset.eq_of_subset_of_card_le
          Finset.inter_subset_right hle
        intro n hn
        rw [← heq] at hn
        exact (Finset.mem_inter.mp hn).1
      refine ⟨hfinM, ?_, hcountM, ?_⟩
      · intro n hn
        have hnav := hsub hn
        constructor
        · intro _
          obtain ⟨j, hj, hs⟩ := (hmemM n hn).mp hnav
          exact ⟨j, Nat.le_succ_of_le hj, hs⟩
        · intro _
          exact hnav
      · rw [hnightsM]
        congr 1
        apply Finset.sum_congr rfl
        intro n hn
        rw [fsd_stable ((hmemM n hn).mp (hsub hn))]
    · -- guard true: the step probes the next shoulder day
      have hf0 := allFiniteStore_readBit3 hfin h0
      have hf1 := allFiniteStore_readBit3 hfin h1
      have hf2 := allFiniteStore_readBit3 hfin h2
      have hor01 : b0.or b1 = ⟨b0.s ∪ b1.s, false⟩ := BitSet.or_fin hf0 hf1
      have hL : (b0.or b1).or b2 = ⟨(b0.s ∪ b1.s) ∪ b2.s, false⟩ := by
        rw [hor01]
        exact BitSet.or_fin rfl hf2
      have hCRO : (mid.available.not).and ov =
          ⟨ov.s \ mid.available.s, false⟩ := BitSet.notand_fin hfinM hovf
      have hTemp : ((b0.or b1).or b2).and ((mid.available.not).and ov) =
          ⟨((b0.s ∪ b1.s) ∪ b2.s) ∩ (ov.s \ mid.available.s), false⟩ := by
        rw [hL, hCRO]
        exact BitSet.and_fin rfl rfl
      have hAvail : mid.available.or ((b0.or b1).or b2) =
          ⟨mid.available.s ∪ ((b0.s ∪ b1.s) ∪ b2.s), false⟩ := by
        rw [hL]
        exact BitSet.or_fin hfinM rfl
      have hSrv : ∀ n, (n ∈ (b0.s ∪ b1.s) ∪ b2.s) ↔
          servedAt store dayOf i (k + 1) n = true := by
        intro n
        have hiff := mem_layer_iff_servedAt hd h0 h1 h2 hf0 hf1 hf2 n
        rw [hL] at hiff
        exact hiff
      subst hrec
      refine ⟨?_, ?_, ?_, ?_⟩
      · show (mid.available.or ((b0.or b1).or b2)).inf = false
        rw [hAvail]
      · intro n hn
        show n ∈ (mid.available.or ((b0.or b1).or b2)).s ↔ _
        rw [hAvail]
        show n ∈ mid.available.s ∪ ((b0.s ∪ b1.s) ∪ b2.s) ↔ _
        rw [Finset.mem_union]
        constructor
        · intro hun
          cases hun with
          | inl hA =>
            obtain ⟨j, hj, hs⟩ := (hmemM n hn).mp hA
            exact ⟨j, Nat.le_succ_of_le hj, hs⟩
          | inr hB =>
            exact ⟨k + 1, Nat.le_refl _, (hSrv n).mp hB⟩
        · rintro ⟨j, hj, hs⟩
          by_cases hjk : j ≤ k
          · exact Or.inl ((hmemM n hn).mpr ⟨j, hjk, hs⟩)
          · have hj1 : j = k + 1 := by omega
            subst hj1
            exact Or.inr ((hSrv n).mpr hs)
      · show mid.count +
          (((b0.or b1).or b2).and ((mid.available.not).and ov)).cardinality
          = ((mid.available.or ((b0.or b1).or b2)).and ov).cardinality
        rw [hTemp, hAvail, BitSet.and_fin rfl hovf, BitSet.cardinality_fin,
          BitSet.cardinality_fin]
        have hA : mid.available.and ov =
            ⟨mid.available.s ∩ ov.s, false⟩ := BitSet.and_fin hfinM hovf
        rw [hA, BitSet.cardinality_fin] at hcountM
        rw [hcountM]
        have hsplit : (mid.available.s ∪ ((b0.s ∪ b1.s) ∪ b2.s)) ∩ ov.s =
            (mid.available.s ∩ ov.s) ∪
            (((b0.s ∪ b1.s) ∪ b2.s) ∩ (ov.s \ mid.available.s)) := by
          ext x
          simp only [Finset.mem_union, Finset.mem_inter, Finset.mem_sdiff]
          tauto
        rw [hsplit]
        rw [Finset.card_union_of_disjoint (by
          rw [Finset.disjoint_left]
          intro x hx1 hx2
          simp only [Finset.mem_inter, Finset.mem_sdiff] at hx1 hx2
          exact hx2.2.2 hx1.1)]
      · show mid.shoulderNights + sumArray
            ((((b0.or b1).or b2).and
              ((mid.available.not).and ov)).toArray.map
              (fun ind => (mapGetI om (aa.getD ind "")).getD 0)) *
            ((k + 1 : ℕ) : Int) = _
        rw [hTemp, sumArray_toArray_map, hnightsM]
        have hper : ∀ n ∈ ov.s, originWeight aa om n *
            (firstServedDistance store dayOf i (k + 1) n : Int) =
            originWeight aa om n *
              (firstServedDistance store dayOf i k n : Int) +
            (if n ∈ ((b0.s ∪ b1.s) ∪ b2.s) ∩ (ov.s \ mid.available.s)
              then originWeight aa om n * ((k + 1 : ℕ) : Int) else 0) := by
          intro n hn
          by_cases hA : n ∈ mid.available.s
          · rw [fsd_stable ((hmemM n hn).mp hA)]
            rw [if_neg (fun hT => by
              simp only [Finset.mem_inter, Finset.mem_sdiff] at hT
              exact hT.2.2 hA)]
            ring
          · have hnone : ∀ j, j ≤ k →
                servedAt store dayOf i j n = false := by
              intro j hj
              cases hsv : servedAt store dayOf i j n with
              | false => rfl
              | true => exact absurd ((hmemM n hn).mpr ⟨j, hj, hsv⟩) hA
            have hfk : firstServedDistance store dayOf i k n = 0 :=
              fsd_unserved hnone
            by_cases hLm : n ∈ (b0.s ∪ b1.s) ∪ b2.s
            · have hsrv := (hSrv n).mp hLm
              rw [fsd_new hnone hsrv, hfk]
              rw [if_pos (Finset.mem_inter.mpr ⟨hLm,
                Finset.mem_sdiff.mpr ⟨hn, hA⟩⟩)]
              push_cast
              ring
            · have hsrv2 : servedAt store dayOf i (k + 1) n = false := by
                cases hsv : servedAt store dayOf i (k + 1) n with
                | false => rfl
                | true => exact absurd ((hSrv n).mpr hsv) hLm
              have hfk1 : firstServedDistance store dayOf i (k + 1) n = 0
                := by
                apply fsd_unserved
                intro j hj
                by_cases hjk : j ≤ k
                · exact hnone j hjk
                · have hj1 : j = k + 1 := by omega
                  subst hj1
                  exact hsrv2
              rw [hfk1, hfk]
              rw [if_neg (fun hT => by
                simp only [Finset.mem_inter, Finset.mem_sdiff] at hT
                exact hLm hT.1)]
              ring
        rw [Finset.sum_congr rfl hper, Finset.sum_add_distrib]
        rw [Finset.sum_ite_mem]
        have hTsub : ov.s ∩
            (((b0.s ∪ b1.s) ∪ b2.s) ∩ (ov.s \ mid.available.s)) =
            ((b0.s ∪ b1.s) ∪ b2.s) ∩ (ov.s \ mid.available.s) := by
          apply Finset.inter_eq_right.mpr
          intro x hx
          simp only [Finset.mem_inter, Finset.mem_sdiff] at hx
          exact hx.2.1
        rw [hTsub, ← Finset.sum_mul]
        unfold originWeight
        ring

theorem mapSetI_length (m : List (String × Int)) (k : String) (v : Int) :
    (mapSetI m k v).length ≤ m.length + 1 := by
  unfold mapSetI
  split
  · rw [List.length_map]
    exact Nat.le_succ _
  · rw [List.length_append]
    exact Nat.le_refl _

theorem buildOriginsMap_length_le (origins : List OriginInput) :
    (buildOriginsMap origins).length ≤ origins.length := by
  have hgen : ∀ (os : List OriginInput) (m : List (String × Int)),
      (os.foldl (fun m o => mapSetI m o.code o.count) m).length ≤
        m.length + os.length := by
    intro os
    induction os with
    | nil => intro m; simp
    | cons o os ih =>
      intro m
      calc ((o :: os).foldl (fun m o => mapSetI m o.code o.count) m).length
          = (os.foldl (fun m o => mapSetI m o.code o.count)
              (mapSetI m o.code o.count)).length := rfl
        _ ≤ (mapSetI m o.code o.count).length + os.length := ih _
        _ ≤ (m.length + 1) + os.length :=
            Nat.add_le_add_right (mapSetI_length m o.code o.count) _
        _ = m.length + (o :: os).length := by
            rw [List.length_cons]
            omega
  simpa using hgen origins []

theorem prepareOriginVector_card_le (st : ConnectionsStorage)
    (origins : List OriginInput) :
    (st.prepareOriginVector
      ((buildOriginsMap origins).map Prod.fst)).s.card ≤ origins.length
    := by
  unfold ConnectionsStorage.prepareOriginVector BitSet.ofList
  calc (((buildOriginsMap origins).map Prod.fst).filterMap
        (fun origin => mapGet st.airports origin)).toFinset.card
      ≤ (((buildOriginsMap origins).map Prod.fst).filterMap
          (fun origin => mapGet st.airports origin)).length :=
        List.toFinset_card_le _
    _ ≤ ((buildOriginsMap origins).map Prod.fst).length :=
        List.length_filterMap_le _ _
    _ = (buildOriginsMap origins).length := List.length_map _ _
    _ ≤ origins.length := buildOriginsMap_length_le origins

theorem sum_fsd_zero_of_anchor_cover
    {store : List (List (List BitSet))} {dayOf : ℕ → Int} {i : ℕ}
    {ov : BitSet} {N : ℕ} (hovf : ov.inf = false)
    (hcard : ov.s.card ≤ N) {avail : BitSet} (hfa : avail.inf = false)
    (hmem : ∀ n, n ∈ ov.s →
      ((n ∈ avail.s) ↔ servedAt store dayOf i 0 n = true))
    (hge : N ≤ (avail.and ov).cardinality) (aa : List String)
    (om : List (String × Int)) (m : ℕ) :
    ∑ n in ov.s, originWeight aa om n *
      (firstServedDistance store dayOf i m n : Int) = 0 := by
  have hA : avail.and ov = ⟨avail.s ∩ ov.s, false⟩ :=
    BitSet.and_fin hfa hovf
  rw [hA, BitSet.cardinality_fin] at hge
  have hsub : ov.s ⊆ avail.s := by
    have hle : ov.s.card ≤ (avail.s ∩ ov.s).card := Nat.le_trans hcard hge
    have heq := Finset.eq_of_subset_of_card_le
      Finset.inter_subset_right hle
    intro n hn
    rw [← heq] at hn
    exact (Finset.mem_inter.mp hn).1
  apply Finset.sum_eq_zero
  intro n hn
  rw [fsd_anchor ((hmem n hn).mp (hsub hn))]
  exact mul_zero _

/-- C6: shoulder weighting.  In a successful per-candidate evaluation of
the ranking engine (with finite stores, as every reachable store is),
each shoulder-nights total decomposes origin by origin: an origin of
weight w first served at shoulder distance j contributes exactly w * j,
an origin served on the anchor day itself (distance 0) contributes 0,
and an unserved origin contributes 0 - this is what firstServedDistance,
written from the spec's P8, computes. -/
theorem C6_shoulder_weighting (st : ConnectionsStorage)
    (origins : List OriginInput) (oIdx iIdx : ℕ) (mo mi : Int) (i : ℕ)
    (dest : Destination)
    (hfinO : allFiniteStore st.outboundStorage = true)
    (hfinI : allFiniteStore st.inboundStorage = true)
    (h : st.computeCandidate (buildOriginsMap origins)
      (st.prepareOriginVector ((buildOriginsMap origins).map Prod.fst))
      origins.length oIdx iIdx mo mi i = some dest) :
    dest.outboundShoulderNights =
      (∑ n in (st.prepareOriginVector
          ((buildOriginsMap origins).map Prod.fst)).s,
        originWeight st.airportsArray (buildOriginsMap origins) n *
          (firstServedDistance st.outboundStorage
            (fun j => (oIdx : Int) - (j : Int)) i mo.toNat n : Int)) ∧
    dest.inboundShoulderNights =
      (∑ n in (st.prepareOriginVector
          ((buildOriginsMap origins).map Prod.fst)).s,
        originWeight st.airportsArray (buildOriginsMap origins) n *
          (firstServedDistance st.inboundStorage
            (fun j => (iIdx : Int) + (j : Int)) i mi.toNat n : Int)) := by
  set om := buildOriginsMap origins with hom
  set ov := st.prepareOriginVector (om.map Prod.fst) with hov
  set N := origins.length with hN
  have hovf : ov.inf = false := rfl
  have hcard : ov.s.card ≤ N := prepareOriginVector_card_le st origins
  obtain ⟨o0, o1, o2, ts0, accOut, i0, i1, i2, ts1, accIn, ho0, ho1, ho2,
    hts0, hAO, hi0, hi1, hi2, hts1, hAI, hd⟩ := computeCandidate_some h
  have hfo0 := allFiniteStore_readBit3 hfinO ho0
  have hfo1 := allFiniteStore_readBit3 hfinO ho1
  have hfo2 := allFiniteStore_readBit3 hfinO ho2
  have hfi0 := allFiniteStore_readBit3 hfinI hi0
  have hfi1 := allFiniteStore_readBit3 hfinI hi1
  have hfi2 := allFiniteStore_readBit3 hfinI hi2
  have hdO : intIdx ((fun j => (oIdx : Int) - (j : Int)) 0) = some oIdx
    := by
    show intIdx ((oIdx : Int) - ((0 : ℕ) : Int)) = some oIdx
    unfold intIdx
    rw [Nat.cast_zero, Int.sub_zero,
      if_neg (Int.not_lt.mpr (Int.natCast_nonneg oIdx)),
      Int.toNat_natCast]
  have hdI : intIdx ((fun j => (iIdx : Int) + (j : Int)) 0) = some iIdx
    := by
    show intIdx ((iIdx : Int) + ((0 : ℕ) : Int)) = some iIdx
    unfold intIdx
    rw [Nat.cast_zero, Int.add_zero,
      if_neg (Int.not_lt.mpr (Int.natCast_nonneg iIdx)),
      Int.toNat_natCast]
  have hfLO : ((o0.or o1).or o2).inf = false := by
    rw [BitSet.or_fin (by rw [BitSet.or_fin hfo0 hfo1]) hfo2]
  have hfLI : ((i0.or i1).or i2).inf = false := by
    rw [BitSet.or_fin (by rw [BitSet.or_fin hfi0 hfi1]) hfi2]
  have hmemO : ∀ n, n ∈ ov.s → ((n ∈ ((o0.or o1).or o2).s) ↔
      servedAt st.outboundStorage
        (fun j => (oIdx : Int) - (j : Int)) i 0 n = true) :=
    fun n _ => mem_layer_iff_servedAt hdO ho0 ho1 ho2 hfo0 hfo1 hfo2 n
  have hmemI : ∀ n, n ∈ ov.s → ((n ∈ ((i0.or i1).or i2).s) ↔
      servedAt st.inboundStorage
        (fun j => (iIdx : Int) + (j : Int)) i 0 n = true) :=
    fun n _ => mem_layer_iff_servedAt hdI hi0 hi1 hi2 hfi0 hfi1 hfi2 n
  constructor
  · rw [hd]
    show accOut.shoulderNights = _
    by_cases hPo : (((o0.or o1).or o2).and ov).cardinality < N ∧ mo > 0
    · rw [if_pos hPo] at hAO
      have hinv := shoulderLoop_invariant st.outboundStorage
        st.airportsArray om ov N (fun j => (oIdx : Int) - (j : Int)) i
        hfinO hovf hcard
        ⟨(o0.or o1).or o2, (((o0.or o1).or o2).and ov).cardinality,
          ts0, 0⟩
        hfLO hmemO rfl mo.toNat accOut hAO
      rw [hinv.2.2.2]
      show (0 : Int) + _ = _
      rw [zero_add]
    · rw [if_neg hPo] at hAO
      have haccOut := (Option.some_inj.mp hAO).symm
      rw [haccOut]
      show (0 : Int) = _
      rcases Nat.lt_or_ge (((o0.or o1).or o2).and ov).cardinality N with
        hlt | hge
      · have hmo0 : ¬ mo > 0 := fun hmo => hPo ⟨hlt, hmo⟩
        have hz : mo.toNat = 0 := Int.toNat_of_nonpos (Int.not_lt.mp hmo0)
        rw [hz]
        rw [Finset.sum_eq_zero (fun n _ => by
          rw [fsd_zero_max]
          exact mul_zero _)]
      · rw [sum_fsd_zero_of_anchor_cover hovf hcard hfLO hmemO hge
          st.airportsArray om mo.toNat]
  · rw [hd]
    show accIn.shoulderNights = _
    by_cases hQ : (((i0.or i1).or i2).and ov).cardinality < N
    · rw [if_pos hQ] at hAI
      by_cases hmi0 : mi > 0
      · rw [show decide (mi > 0) = true from by simpa using hmi0] at hAI
        have hinv := shoulderLoop_invariant st.inboundStorage
          st.airportsArray om ov N (fun j => (iIdx : Int) + (j : Int)) i
          hfinI hovf hcard
          ⟨(i0.or i1).or i2, (((i0.or i1).or i2).and ov).cardinality,
            ts1, 0⟩
          hfLI hmemI rfl mi.toNat accIn hAI
        rw [hinv.2.2.2]
        show (0 : Int) + _ = _
        rw [zero_add]
      · have hz : mi.toNat = 0 := Int.toNat_of_nonpos (Int.not_lt.mp hmi0)
        rw [hz] at hAI
        unfold shoulderLoop at hAI
        have haccIn := (Option.some_inj.mp hAI).symm
        rw [haccIn]
        show (0 : Int) = _
        rw [hz]
        rw [Finset.sum_eq_zero (fun n _ => by
          rw [fsd_zero_max]
          exact mul_zero _)]
    · rw [if_neg hQ] at hAI
      have haccIn := (Option.some_inj.mp hAI).symm
      rw [haccIn]
      show (0 : Int) = _
      rw [sum_fsd_zero_of_anchor_cover hovf hcard hfLI hmemI
        (Nat.le_of_not_lt hQ) st.airportsArray om mi.toNat]

theorem C6_witness :
    (allFiniteStore fixtureStore.outboundStorage = true) ∧
    (allFiniteStore fixtureStore.inboundStorage = true) ∧
    (fixtureStore.computeCandidate (buildOriginsMap fixtureOrigins)
      (fixtureStore.prepareOriginVector
        ((buildOriginsMap fixtureOrigins).map Prod.fst))
      fixtureOrigins.length 9 14 1 1 1 =
      some ⟨"CCC", 4, 4, [], 2, [], 1⟩) ∧
    ((Destination.mk "CCC" 4 4 [] 2 [] 1).outboundShoulderNights =
      (∑ n in (fixtureStore.prepareOriginVector
          ((buildOriginsMap fixtureOrigins).map Prod.fst)).s,
        originWeight fixtureStore.airportsArray
            (buildOriginsMap fixtureOrigins) n *
          (firstServedDistance fixtureStore.outboundStorage
            (fun j => ((9 : ℕ) : Int) - (j : Int)) 1 (1 : Int).toNat n :
            Int)) ∧
      (Destination.mk "CCC" 4 4 [] 2 [] 1).inboundShoulderNights =
      (∑ n in (fixtureStore.prepareOriginVector
          ((buildOriginsMap fixtureOrigins).map Prod.fst)).s,
        originWeight fixtureStore.airportsArray
            (buildOriginsMap fixtureOrigins) n *
          (firstServedDistance fixtureStore.inboundStorage
            (fun j => ((14 : ℕ) : Int) + (j : Int)) 1 (1 : Int).toNat n :
            Int))) :=
  ⟨by rfl, by rfl, by rfl,
    C6_shoulder_weighting fixtureStore fixtureOrigins 9 14 1 1 1
      ⟨"CCC", 4, 4, [], 2, [], 1⟩ (by rfl) (by rfl) (by rfl)⟩
